import Mathlib

/-!
# Verification of the 3D super-resolution pipeline specification

Shallow embedding of the volumetric tiling / slicing / reconstruction
pipeline of the Super_resolution repository (Tutorial.ipynb and the
modules it drives), with intensities carried as exact rationals.

The repository ships only the tutorial notebook; the modules it calls
(`utils`, `misc`, `main.py`) are not present, so the pipeline operations
are modelled from the specification's contracts, as marked on each
definition.  The `/256` normalization of the metric-comparison cells is
embedded directly from the notebook code.
-/

/-- A 2D grayscale image: explicit height/width and a total data function;
values outside the shape are junk and never relied upon. -/
structure Image where
  h : Nat
  w : Nat
  data : Nat → Nat → ℚ

instance : Inhabited Image := ⟨⟨0, 0, fun _ _ => 0⟩⟩

/-- A 3D volume: shape (depth, height, width) plus a total data function. -/
structure Volume where
  d : Nat
  h : Nat
  w : Nat
  data : Nat → Nat → Nat → ℚ

instance : Inhabited Volume := ⟨⟨0, 0, 0, fun _ _ _ => 0⟩⟩

/-- Shape triple of a volume. -/
def Volume.shape (v : Volume) : Nat × Nat × Nat := (v.d, v.h, v.w)

/-- Two images agree: same shape and same data on the shape's domain. -/
def imgEqv (a b : Image) : Prop :=
  a.h = b.h ∧ a.w = b.w ∧
  ∀ j, j < a.h → ∀ k, k < a.w → a.data j k = b.data j k

/-- Two volumes agree: same shape and same data on the shape's domain. -/
def volEqv (a b : Volume) : Prop :=
  a.d = b.d ∧ a.h = b.h ∧ a.w = b.w ∧
  ∀ i, i < a.d → ∀ j, j < a.h → ∀ k, k < a.w → a.data i j k = b.data i j k

theorem volEqv_refl (a : Volume) : volEqv a a :=
  ⟨rfl, rfl, rfl, fun _ _ _ _ _ _ => rfl⟩

theorem volEqv_symm {a b : Volume} (hab : volEqv a b) : volEqv b a := by
  obtain ⟨h1, h2, h3, h4⟩ := hab
  exact ⟨h1.symm, h2.symm, h3.symm, fun i hi j hj k hk =>
    (h4 i (h1 ▸ hi) j (h2 ▸ hj) k (h3 ▸ hk)).symm⟩

theorem volEqv_trans {a b c : Volume} (hab : volEqv a b) (hbc : volEqv b c) :
    volEqv a c := by
  obtain ⟨h1, h2, h3, h4⟩ := hab
  obtain ⟨g1, g2, g3, g4⟩ := hbc
  exact ⟨h1.trans g1, h2.trans g2, h3.trans g3, fun i hi j hj k hk =>
    (h4 i hi j hj k hk).trans (g4 i (h1 ▸ hi) j (h2 ▸ hj) k (h3 ▸ hk))⟩

/-- The three slicing axes of the 3D pipeline. -/
inductive Axis
  | x
  | y
  | z
deriving DecidableEq

/-- Modelled from the spec: Axis Slicer core (§4.2 `slice`): the ordered
stack of 2D cross-sections of `v` orthogonal to the given axis, one per
index along that axis.  The implementation module is not under `src/`. -/
def sliceCore (v : Volume) : Axis → List Image
  | Axis.x => (List.range v.d).map (fun i => ⟨v.h, v.w, fun j k => v.data i j k⟩)
  | Axis.y => (List.range v.h).map (fun j => ⟨v.d, v.w, fun i k => v.data i j k⟩)
  | Axis.z => (List.range v.w).map (fun k => ⟨v.d, v.h, fun i j => v.data i j k⟩)

/-- Modelled from the spec: stacking a slice stack back into a volume along
the same axis, in slice index order (§4.2). -/
def stackAxis (imgs : List Image) : Axis → Volume
  | Axis.x =>
      ⟨imgs.length, (imgs.getD 0 default).h, (imgs.getD 0 default).w,
        fun i j k => (imgs.getD i default).data j k⟩
  | Axis.y =>
      ⟨(imgs.getD 0 default).h, imgs.length, (imgs.getD 0 default).w,
        fun i j k => (imgs.getD j default).data i k⟩
  | Axis.z =>
      ⟨(imgs.getD 0 default).h, (imgs.getD 0 default).w, imgs.length,
        fun i j k => (imgs.getD k default).data i j⟩

theorem getD_map_range {α : Type} (n i : Nat) (f : Nat → α) [Inhabited α]
    (hi : i < n) : ((List.range n).map f).getD i default = f i := by
  rw [List.getD_eq_getElem?_getD]
  rw [List.getElem?_map, List.getElem?_range hi]
  rfl

/-- Claim C3: for every volume with all dimensions non-zero and every axis,
slicing the volume and stacking the resulting 2D slices back in index order
reconstructs the original volume exactly, with no change of resolution. -/
theorem slice_stack_roundtrip (v : Volume) (a : Axis)
    (hd : 0 < v.d) (hh : 0 < v.h) (hw : 0 < v.w) :
    volEqv (stackAxis (sliceCore v a) a) v := by
  cases a
  case x =>
    refine ⟨?_, ?_, ?_, ?_⟩
    · simp [stackAxis, sliceCore]
    · simp only [stackAxis, sliceCore]; rw [getD_map_range v.d 0 _ hd]
    · simp only [stackAxis, sliceCore]; rw [getD_map_range v.d 0 _ hd]
    · intro i hi j _ k _
      simp only [stackAxis, sliceCore, List.length_map, List.length_range] at hi ⊢
      rw [getD_map_range v.d i _ hi]
  case y =>
    refine ⟨?_, ?_, ?_, ?_⟩
    · simp only [stackAxis, sliceCore]; rw [getD_map_range v.h 0 _ hh]
    · simp [stackAxis, sliceCore]
    · simp only [stackAxis, sliceCore]; rw [getD_map_range v.h 0 _ hh]
    · intro i _ j hj k _
      simp only [stackAxis, sliceCore, List.length_map, List.length_range] at hj ⊢
      rw [getD_map_range v.h j _ hj]
  case z =>
    refine ⟨?_, ?_, ?_, ?_⟩
    · simp only [stackAxis, sliceCore]; rw [getD_map_range v.w 0 _ hw]
    · simp only [stackAxis, sliceCore]; rw [getD_map_range v.w 0 _ hw]
    · simp [stackAxis, sliceCore]
    · intro i _ j _ k hk
      simp only [stackAxis, sliceCore, List.length_map, List.length_range] at hk ⊢
      rw [getD_map_range v.w k _ hk]

theorem slice_stack_roundtrip_witness :
    0 < (⟨2, 2, 2, fun i j k => (i + 2 * j + 4 * k : ℚ)⟩ : Volume).d ∧
    volEqv
      (stackAxis (sliceCore ⟨2, 2, 2, fun i j k => (i + 2 * j + 4 * k : ℚ)⟩ Axis.y) Axis.y)
      ⟨2, 2, 2, fun i j k => (i + 2 * j + 4 * k : ℚ)⟩ :=
  ⟨by decide,
   slice_stack_roundtrip _ Axis.y (by decide) (by decide) (by decide)⟩

/-- Errors of the Axis Slicer contract (§4.1). -/
inductive SliceError
  | invalidAxisError
  | emptyVolumeError
deriving DecidableEq

/-- Modelled from the spec: the three recognized axis names of
`slice(volume, axis)` (§4.1); the slicer module is not under `src/`. -/
def parseAxis (a : String) : Option Axis :=
  if a = "x" then some Axis.x
  else if a = "y" then some Axis.y
  else if a = "z" then some Axis.z
  else none

/-- Modelled from the spec: Axis Slicer with its error contract (§4.1):
`InvalidAxisError` when the axis is not recognized, `EmptyVolumeError` when
any dimension is zero; the volume is returned unchanged alongside the
result, making the no-mutation guarantee explicit. -/
def sliceChecked (v : Volume) (a : String) :
    Except SliceError (List Image) × Volume :=
  match parseAxis a with
  | none => (Except.error SliceError.invalidAxisError, v)
  | some ax =>
      if v.d = 0 ∨ v.h = 0 ∨ v.w = 0 then
        (Except.error SliceError.emptyVolumeError, v)
      else
        (Except.ok (sliceCore v ax), v)

/-- Claim C7: `slice` does not mutate the volume, fails with
`InvalidAxisError` exactly when the axis is not one of x, y, z, fails with
`EmptyVolumeError` when the axis is recognized and some dimension is zero,
and succeeds otherwise. -/
theorem sliceChecked_spec (v : Volume) (a : String) :
    (sliceChecked v a).2 = v
    ∧ ((sliceChecked v a).1 = Except.error SliceError.invalidAxisError ↔
        ¬(a = "x" ∨ a = "y" ∨ a = "z"))
    ∧ ((a = "x" ∨ a = "y" ∨ a = "z") → (v.d = 0 ∨ v.h = 0 ∨ v.w = 0) →
        (sliceChecked v a).1 = Except.error SliceError.emptyVolumeError)
    ∧ ((a = "x" ∨ a = "y" ∨ a = "z") → ¬(v.d = 0 ∨ v.h = 0 ∨ v.w = 0) →
        ∃ st, (sliceChecked v a).1 = Except.ok st) := by
  by_cases hx : a = "x"
  · subst hx
    by_cases hz : v.d = 0 ∨ v.h = 0 ∨ v.w = 0 <;>
      simp [sliceChecked, parseAxis, hz]
  · by_cases hy : a = "y"
    · subst hy
      by_cases hz : v.d = 0 ∨ v.h = 0 ∨ v.w = 0 <;>
        simp [sliceChecked, parseAxis, hz]
    · by_cases hzz : a = "z"
      · subst hzz
        by_cases hz : v.d = 0 ∨ v.h = 0 ∨ v.w = 0 <;>
          simp [sliceChecked, parseAxis, hz]
      · simp [sliceChecked, parseAxis, hx, hy, hzz]

theorem sliceChecked_spec_witness :
    (sliceChecked ⟨1, 1, 1, fun _ _ _ => (0 : ℚ)⟩ "q").1 =
      Except.error SliceError.invalidAxisError
    ∧ (sliceChecked ⟨0, 1, 1, fun _ _ _ => (0 : ℚ)⟩ "x").1 =
      Except.error SliceError.emptyVolumeError
    ∧ (sliceChecked ⟨1, 1, 1, fun _ _ _ => (0 : ℚ)⟩ "q").2 =
      ⟨1, 1, 1, fun _ _ _ => (0 : ℚ)⟩ :=
  ⟨(sliceChecked_spec ⟨1, 1, 1, fun _ _ _ => (0 : ℚ)⟩ "q").2.1.mpr (by decide),
   (sliceChecked_spec ⟨0, 1, 1, fun _ _ _ => (0 : ℚ)⟩ "x").2.2.1
     (Or.inl rfl) (Or.inl rfl),
   (sliceChecked_spec ⟨1, 1, 1, fun _ _ _ => (0 : ℚ)⟩ "q").1⟩

/-- Type of 1D resampling kernels: source length, target length, signal,
output index. -/
def Resampler : Type := Nat → Nat → (Nat → ℚ) → Nat → ℚ

/-- Modelled from the spec: nearest-neighbor 1D resampling.  §4.3 requires a
monotonicity-preserving volumetric resampling ("trilinear or equivalent")
and §9 records that the exact method is left open; nearest-neighbor is the
monotone choice used here. -/
def nearestR : Resampler := fun n m f i => f (i * n / m)

/-- Modelled from the spec: the Keys cubic convolution kernel (a = -1/2),
the standard bicubic interpolation weight function. -/
def cubicW (t : ℚ) : ℚ :=
  if |t| ≤ 1 then (3 / 2) * |t| ^ 3 - (5 / 2) * |t| ^ 2 + 1
  else if |t| ≤ 2 then (-1 / 2) * |t| ^ 3 + (5 / 2) * |t| ^ 2 - 4 * |t| + 2
  else 0

/-- Modelled from the spec: 1D bicubic resampling (cubic convolution over
the 4 nearest source samples, indices clamped at the borders), used for the
"no-op bicubic upsampler" stub adapter of §8. -/
def cubicR : Resampler := fun n m f i =>
  Finset.sum (Finset.range 4) (fun t =>
    cubicW (((i * n % m : Nat) : ℚ) / (m : ℚ) - ((t : ℚ) - 1)) *
      f (min (i * n / m + t - 1) (n - 1)))

/-- Apply a 1D resampler along the depth axis, producing depth `m`. -/
def upD (R : Resampler) (v : Volume) (m : Nat) : Volume :=
  ⟨m, v.h, v.w, fun i j k => R v.d m (fun i' => v.data i' j k) i⟩

/-- Apply a 1D resampler along the height axis, producing height `m`. -/
def upH (R : Resampler) (v : Volume) (m : Nat) : Volume :=
  ⟨v.d, m, v.w, fun i j k => R v.h m (fun j' => v.data i j' k) j⟩

/-- Apply a 1D resampler along the width axis, producing width `m`. -/
def upW (R : Resampler) (v : Volume) (m : Nat) : Volume :=
  ⟨v.d, v.h, m, fun i j k => R v.w m (fun k' => v.data i j k') k⟩

/-- Apply a 1D resampler along an image's first (height) axis. -/
def upImH (R : Resampler) (img : Image) (m : Nat) : Image :=
  ⟨m, img.w, fun j k => R img.h m (fun j' => img.data j' k) j⟩

/-- Apply a 1D resampler along an image's second (width) axis. -/
def upImW (R : Resampler) (img : Image) (m : Nat) : Image :=
  ⟨img.h, m, fun j k => R img.w m (fun k' => img.data j k') k⟩

/-- Modelled from the spec: a deterministic stub Patch Inference Adapter
(§2 item 1, §9): separable 2D upsampling of a patch by scale factor `s`
using the 1D resampler `R` on each in-plane axis. -/
def adapterOf (R : Resampler) (s : Nat) (img : Image) : Image :=
  upImH R (upImW R img (img.w * s)) (img.h * s)

/-- Modelled from the spec: volumetric resize to a target shape (§4.3),
separable application of the 1D resampler along width, height then depth. -/
def resize3 (R : Resampler) (v : Volume) (t : Nat × Nat × Nat) : Volume :=
  upD R (upH R (upW R v t.2.2) t.2.1) t.1

/-- Elementwise arithmetic mean of three volumes (dims taken from the
first; all three share the target shape when used by `fuse`). -/
def volMean3 (a b c : Volume) : Volume :=
  ⟨a.d, a.h, a.w, fun i j k =>
    (a.data i j k + b.data i j k + c.data i j k) / 3⟩

/-- Volume Reconstructor fusion parameterized by the resize method. -/
def fuseWith (R : Resampler) (dX dY dZ : Volume) (t : Nat × Nat × Nat) :
    Volume :=
  volMean3 (resize3 R dX t) (resize3 R dY t) (resize3 R dZ t)

/-- Modelled from the spec: Volume Reconstructor `fuse` (§4.3): resize each
directional volume to the target shape with a monotone volumetric
resampling (nearest-neighbor; the spec leaves the exact method open, §9),
then take the elementwise arithmetic mean.  Not under `src/`. -/
def fuse (dX dY dZ : Volume) (t : Nat × Nat × Nat) : Volume :=
  fuseWith nearestR dX dY dZ t

/-- Claim C1: `fuse` first resizes each directional volume to the target
shape with a monotonicity-preserving volumetric resampling, then returns
the elementwise arithmetic mean of the three resized volumes: the result
is exactly that mean, the resize hits the target shape, and the resampling
preserves pointwise intensity ordering. -/
theorem fuse_spec (dX dY dZ : Volume) (t : Nat × Nat × Nat) :
    fuse dX dY dZ t =
      volMean3 (resize3 nearestR dX t) (resize3 nearestR dY t)
        (resize3 nearestR dZ t)
    ∧ (resize3 nearestR dX t).shape = t
    ∧ (∀ i j k, (fuse dX dY dZ t).data i j k =
        ((resize3 nearestR dX t).data i j k +
         (resize3 nearestR dY t).data i j k +
         (resize3 nearestR dZ t).data i j k) / 3)
    ∧ (∀ a b : Volume, a.d = b.d → a.h = b.h → a.w = b.w →
        0 < a.d → 0 < a.h → 0 < a.w →
        (∀ i j k, i < a.d → j < a.h → k < a.w →
          a.data i j k ≤ b.data i j k) →
        ∀ i j k, i < t.1 → j < t.2.1 → k < t.2.2 →
          (resize3 nearestR a t).data i j k ≤
          (resize3 nearestR b t).data i j k) := by
  refine ⟨rfl, rfl, fun i j k => rfl, ?_⟩
  intro a b hdd hhh hww hd hh hw hle i j k hi hj hk
  have hidx : ∀ (e m n : Nat), 0 < n → e < m → e * n / m < n := by
    intro e m n hn he
    exact Nat.div_lt_of_lt_mul ((Nat.mul_lt_mul_right hn).mpr he)
  simp only [resize3, upD, upH, upW, nearestR]
  rw [← hdd, ← hhh, ← hww]
  exact hle _ _ _ (hidx i t.1 a.d hd hi) (hidx j t.2.1 a.h hh hj)
    (hidx k t.2.2 a.w hw hk)

theorem fuse_spec_witness :
    (fuse ⟨1, 1, 1, fun _ _ _ => (2 : ℚ)⟩ ⟨1, 1, 1, fun _ _ _ => (3 : ℚ)⟩
        ⟨1, 1, 1, fun _ _ _ => (4 : ℚ)⟩ (2, 2, 2)).data 1 1 1 =
      ((resize3 nearestR ⟨1, 1, 1, fun _ _ _ => (2 : ℚ)⟩ (2, 2, 2)).data 1 1 1 +
       (resize3 nearestR ⟨1, 1, 1, fun _ _ _ => (3 : ℚ)⟩ (2, 2, 2)).data 1 1 1 +
       (resize3 nearestR ⟨1, 1, 1, fun _ _ _ => (4 : ℚ)⟩ (2, 2, 2)).data 1 1 1) / 3
    ∧ (resize3 nearestR ⟨1, 1, 1, fun _ _ _ => (0 : ℚ)⟩ (2, 2, 2)).data 0 0 0 ≤
      (resize3 nearestR ⟨1, 1, 1, fun _ _ _ => (1 : ℚ)⟩ (2, 2, 2)).data 0 0 0 :=
  ⟨(fuse_spec ⟨1, 1, 1, fun _ _ _ => (2 : ℚ)⟩ ⟨1, 1, 1, fun _ _ _ => (3 : ℚ)⟩
      ⟨1, 1, 1, fun _ _ _ => (4 : ℚ)⟩ (2, 2, 2)).2.2.1 1 1 1,
   (fuse_spec ⟨1, 1, 1, fun _ _ _ => (2 : ℚ)⟩ ⟨1, 1, 1, fun _ _ _ => (3 : ℚ)⟩
      ⟨1, 1, 1, fun _ _ _ => (4 : ℚ)⟩ (2, 2, 2)).2.2.2
     ⟨1, 1, 1, fun _ _ _ => (0 : ℚ)⟩ ⟨1, 1, 1, fun _ _ _ => (1 : ℚ)⟩
     rfl rfl rfl (by decide) (by decide) (by decide)
     (fun _ _ _ _ _ _ => by norm_num)
     0 0 0 (by decide) (by decide) (by decide)⟩

/-- Error of the Directional Super-Resolution Runner contract (§4.2). -/
inductive RunError
  | adapterShapeMismatchError
deriving DecidableEq

/-- Modelled from the spec: Directional Super-Resolution Runner `run`
(§4.2): each slice is submitted independently to the Patch Inference
Adapter; the returned size is validated against the expected scaled size,
failing with `AdapterShapeMismatchError` on any mismatch; otherwise the
upsampled slices are stacked back in index order.  Not under `src/`. -/
def run (stack : List Image) (s : Nat) (adapter : Image → Nat → Image)
    (a : Axis) : Except RunError Volume :=
  if ∀ img ∈ stack, (adapter img s).h = img.h * s ∧ (adapter img s).w = img.w * s
  then Except.ok (stackAxis (stack.map (fun img => adapter img s)) a)
  else Except.error RunError.adapterShapeMismatchError

/-- The dimension of a volume along the given (through) axis. -/
def throughDim (v : Volume) : Axis → Nat
  | Axis.x => v.d
  | Axis.y => v.h
  | Axis.z => v.w

/-- The two in-plane dimensions of a volume orthogonal to the given axis,
in slice (row, column) order. -/
def inPlaneDims (v : Volume) : Axis → Nat × Nat
  | Axis.x => (v.h, v.w)
  | Axis.y => (v.d, v.w)
  | Axis.z => (v.d, v.h)

theorem getD_map {α β : Type} [Inhabited α] [Inhabited β]
    (l : List α) (f : α → β) (i : Nat) (hi : i < l.length) :
    (l.map f).getD i default = f (l.getD i default) := by
  rw [List.getD_eq_getElem?_getD, List.getD_eq_getElem?_getD, List.getElem?_map]
  rw [List.getElem?_eq_getElem hi]
  rfl

theorem getD_mem {α : Type} [Inhabited α] (l : List α) (i : Nat)
    (hi : i < l.length) : l.getD i default ∈ l := by
  rw [List.getD_eq_getElem?_getD, List.getElem?_eq_getElem hi]
  exact List.getElem_mem hi

/-- Claim C4: for a nonempty stack of `n` slices of size `hgt x wid`, when
the adapter returns patches of the expected scaled size, `run` returns a
volume whose in-plane dimensions are `hgt*s` and `wid*s`, whose
through-axis dimension is `n` (unscaled), with the upsampled slices stacked
in input index order; and `run` fails with `AdapterShapeMismatchError` when
some adapter output does not match the expected scaled size. -/
theorem run_spec (stack : List Image) (s : Nat)
    (adapter : Image → Nat → Image) (a : Axis) (hgt wid : Nat)
    (hne : 0 < stack.length)
    (huni : ∀ img ∈ stack, img.h = hgt ∧ img.w = wid) :
    ((∀ img ∈ stack,
        (adapter img s).h = img.h * s ∧ (adapter img s).w = img.w * s) →
      ∃ out, run stack s adapter a = Except.ok out
        ∧ throughDim out a = stack.length
        ∧ inPlaneDims out a = (hgt * s, wid * s)
        ∧ ∀ i, i < stack.length →
            imgEqv ((sliceCore out a).getD i default)
              (adapter (stack.getD i default) s))
    ∧ ((∃ img ∈ stack,
        ¬((adapter img s).h = img.h * s ∧ (adapter img s).w = img.w * s)) →
      run stack s adapter a = Except.error RunError.adapterShapeMismatchError) := by
  constructor
  · intro hgood
    have hrun : run stack s adapter a =
        Except.ok (stackAxis (stack.map (fun img => adapter img s)) a) := by
      unfold run
      exact if_pos hgood
    set mapped := stack.map (fun img => adapter img s) with hmapped
    have hlen : mapped.length = stack.length := List.length_map _ _
    have hmlt : ∀ i, i < stack.length →
        mapped.getD i default = adapter (stack.getD i default) s := by
      intro i hi
      rw [hmapped, getD_map stack _ i hi]
    have hadim : ∀ i, i < stack.length →
        (adapter (stack.getD i default) s).h = hgt * s ∧
        (adapter (stack.getD i default) s).w = wid * s := by
      intro i hi
      have hm : stack.getD i default ∈ stack := getD_mem stack i hi
      obtain ⟨e1, e2⟩ := hgood _ hm
      obtain ⟨u1, u2⟩ := huni _ hm
      exact ⟨by rw [e1, u1], by rw [e2, u2]⟩
    have h0 : mapped.getD 0 default = adapter (stack.getD 0 default) s :=
      hmlt 0 hne
    have h0h : (mapped.getD 0 default).h = hgt * s := by
      rw [h0]; exact (hadim 0 hne).1
    have h0w : (mapped.getD 0 default).w = wid * s := by
      rw [h0]; exact (hadim 0 hne).2
    refine ⟨stackAxis mapped a, hrun, ?_⟩
    cases a
    case x =>
      refine ⟨?_, ?_, ?_⟩
      · simp only [stackAxis, throughDim]
        exact hlen
      · simp only [stackAxis, inPlaneDims]
        rw [h0h, h0w]
      · intro i hi
        have hid : i < (stackAxis mapped Axis.x).d := by
          simp only [stackAxis]
          rw [hlen]
          exact hi
        simp only [sliceCore]
        rw [getD_map_range _ i _ hid]
        refine ⟨?_, ?_, ?_⟩
        · simp only [stackAxis]
          rw [h0h, (hadim i hi).1]
        · simp only [stackAxis]
          rw [h0w, (hadim i hi).2]
        · intro j _ k _
          simp only [stackAxis]
          rw [hmlt i hi]
    case y =>
      refine ⟨?_, ?_, ?_⟩
      · simp only [stackAxis, throughDim]
        exact hlen
      · simp only [stackAxis, inPlaneDims]
        rw [h0h, h0w]
      · intro i hi
        have hid : i < (stackAxis mapped Axis.y).h := by
          simp only [stackAxis]
          rw [hlen]
          exact hi
        simp only [sliceCore]
        rw [getD_map_range _ i _ hid]
        refine ⟨?_, ?_, ?_⟩
        · simp only [stackAxis]
          rw [h0h, (hadim i hi).1]
        · simp only [stackAxis]
          rw [h0w, (hadim i hi).2]
        · intro j _ k _
          simp only [stackAxis]
          rw [hmlt i hi]
    case z =>
      refine ⟨?_, ?_, ?_⟩
      · simp only [stackAxis, throughDim]
        exact hlen
      · simp only [stackAxis, inPlaneDims]
        rw [h0h, h0w]
      · intro i hi
        have hid : i < (stackAxis mapped Axis.z).w := by
          simp only [stackAxis]
          rw [hlen]
          exact hi
        simp only [sliceCore]
        rw [getD_map_range _ i _ hid]
        refine ⟨?_, ?_, ?_⟩
        · simp only [stackAxis]
          rw [h0h, (hadim i hi).1]
        · simp only [stackAxis]
          rw [h0w, (hadim i hi).2]
        · intro j _ k _
          simp only [stackAxis]
          rw [hmlt i hi]
  · intro hbad
    unfold run
    refine if_neg ?_
    intro hall
    obtain ⟨img, hmem, hno⟩ := hbad
    exact hno (hall img hmem)

theorem run_spec_witness :
    (∃ out, run [⟨1, 1, fun _ _ => (5 : ℚ)⟩] 2
          (fun img t => adapterOf nearestR t img) Axis.x = Except.ok out
        ∧ throughDim out Axis.x = 1
        ∧ inPlaneDims out Axis.x = (2, 2)
        ∧ ∀ i, i < 1 →
            imgEqv ((sliceCore out Axis.x).getD i default)
              (adapterOf nearestR 2
                (([⟨1, 1, fun _ _ => (5 : ℚ)⟩] : List Image).getD i default)))
    ∧ run [⟨1, 1, fun _ _ => (5 : ℚ)⟩] 2 (fun img _ => img) Axis.x =
        Except.error RunError.adapterShapeMismatchError :=
  ⟨(run_spec [⟨1, 1, fun _ _ => (5 : ℚ)⟩] 2
      (fun img t => adapterOf nearestR t img) Axis.x 1 1 (by decide)
      (fun img hm => by
        rw [List.mem_singleton] at hm
        subst hm
        exact ⟨rfl, rfl⟩)).1
    (fun img hm => ⟨rfl, rfl⟩),
   (run_spec [⟨1, 1, fun _ _ => (5 : ℚ)⟩] 2
      (fun img _ => img) Axis.x 1 1 (by decide)
      (fun img hm => by
        rw [List.mem_singleton] at hm
        subst hm
        exact ⟨rfl, rfl⟩)).2
    ⟨⟨1, 1, fun _ _ => (5 : ℚ)⟩, by simp, by
      intro hcon
      exact absurd hcon.1 (by decide)⟩⟩

/-- Errors of the Tile Manager recombination contract (§4.4). -/
inductive TileError
  | incompleteCoverageError
  | overlapError
deriving DecidableEq

/-- A tile: a contiguous axis-aligned sub-block of a volume plus its
integer offset in the parent volume's (pre-scaling) coordinates (§3). -/
structure Cube where
  o1 : Nat
  o2 : Nat
  o3 : Nat
  vol : Volume

/-- The sub-block of `v` of dims `(n1, n2, n3)` starting at the offset. -/
def subVolume (v : Volume) (o1 o2 o3 n1 n2 n3 : Nat) : Volume :=
  ⟨n1, n2, n3, fun i j k => v.data (o1 + i) (o2 + j) (o3 + k)⟩

/-- Modelled from the spec: the cube offsets along one axis of length `n`
for edge length `c`: all multiples of `c` below `n` (§4.4). -/
def offsets (n c : Nat) : List Nat :=
  (List.range ((n + c - 1) / c)).map (fun m => m * c)

/-- The offset triples of the tiling of `v` with edge length `c`. -/
def tripleOffsets (v : Volume) (c : Nat) : List (Nat × Nat × Nat) :=
  (offsets v.d c) ×ˢ ((offsets v.h c) ×ˢ (offsets v.w c))

/-- The cube of the tiling at a given offset triple; the last cube along
each axis is smaller when the dimension is not evenly divisible (§4.4). -/
def mkCube (v : Volume) (c : Nat) (o : Nat × Nat × Nat) : Cube :=
  ⟨o.1, o.2.1, o.2.2,
    subVolume v o.1 o.2.1 o.2.2
      (min c (v.d - o.1)) (min c (v.h - o.2.1)) (min c (v.w - o.2.2))⟩

/-- Modelled from the spec: Tile Manager `split` (§4.4): partition `v` into
non-overlapping axis-aligned cubes of edge length `c` (smaller at ragged
borders), each retaining its offset in the original coordinate system.
`utils` is not under `src/`. -/
def split (v : Volume) (c : Nat) : List Cube :=
  (tripleOffsets v c).map (mkCube v c)

/-- Output buffer during recombination: per-voxel optional value, `none`
meaning not yet written. -/
def Buffer : Type := Nat → Nat → Nat → Option ℚ

/-- The scaled output region of a processed cube: its offset times the
scale factor, extended by the processed cube's (already scaled) dims. -/
def inRegion (s : Nat) (cu : Cube) (x y z : Nat) : Prop :=
  cu.o1 * s ≤ x ∧ x < cu.o1 * s + cu.vol.d ∧
  cu.o2 * s ≤ y ∧ y < cu.o2 * s + cu.vol.h ∧
  cu.o3 * s ≤ z ∧ z < cu.o3 * s + cu.vol.w

instance (s : Nat) (cu : Cube) (x y z : Nat) :
    Decidable (inRegion s cu x y z) := by
  unfold inRegion
  infer_instance

/-- No voxel of the cube's scaled region is already written in the buffer. -/
def regionFree (s : Nat) (buf : Buffer) (cu : Cube) : Prop :=
  ∀ a, a < cu.vol.d → ∀ b, b < cu.vol.h → ∀ e, e < cu.vol.w →
    buf (cu.o1 * s + a) (cu.o2 * s + b) (cu.o3 * s + e) = none

instance (s : Nat) (buf : Buffer) (cu : Cube) :
    Decidable (regionFree s buf cu) := by
  unfold regionFree
  infer_instance

/-- Modelled from the spec: place one processed cube at `offset * s` in the
output buffer, failing with `OverlapError` if any voxel of its region was
already written (§4.4's defensive check). -/
def place (s : Nat) (buf : Buffer) (cu : Cube) : Except TileError Buffer :=
  if regionFree s buf cu then
    Except.ok (fun x y z =>
      if inRegion s cu x y z then
        some (cu.vol.data (x - cu.o1 * s) (y - cu.o2 * s) (z - cu.o3 * s))
      else buf x y z)
  else Except.error TileError.overlapError

/-- Place a list of processed cubes in order. -/
def placeAll (s : Nat) (buf : Buffer) : List Cube → Except TileError Buffer
  | [] => Except.ok buf
  | cu :: rest =>
      match place s buf cu with
      | Except.error e => Except.error e
      | Except.ok buf' => placeAll s buf' rest

/-- Every voxel of the `(d0*s, h0*s, w0*s)` output is written. -/
def covered (buf : Buffer) (d0 h0 w0 s : Nat) : Prop :=
  ∀ x, x < d0 * s → ∀ y, y < h0 * s → ∀ z, z < w0 * s →
    (buf x y z).isSome = true

instance (buf : Buffer) (d0 h0 w0 s : Nat) :
    Decidable (covered buf d0 h0 w0 s) := by
  unfold covered
  infer_instance

/-- Modelled from the spec: Tile Manager `recombine` (§4.4): place each
processed cube at `offset * scaleFactor` in a freshly allocated output
volume of shape `originalShape * scaleFactor`, failing with `OverlapError`
on a doubly-written voxel and with `IncompleteCoverageError` if some
output voxel remains unwritten.  `utils.combine_cropped` (called from
Tutorial.ipynb cell-12) is not under `src/`. -/
def recombine (cus : List Cube) (d0 h0 w0 s : Nat) :
    Except TileError Volume :=
  match placeAll s (fun _ _ _ => none) cus with
  | Except.error e => Except.error e
  | Except.ok buf =>
      if covered buf d0 h0 w0 s then
        Except.ok ⟨d0 * s, h0 * s, w0 * s, fun x y z => (buf x y z).getD 0⟩
      else Except.error TileError.incompleteCoverageError

/-- Disjointness of the scaled output regions of two cubes. -/
def regionDisjoint (s : Nat) (cu cu' : Cube) : Prop :=
  ∀ x y z, ¬(inRegion s cu x y z ∧ inRegion s cu' x y z)

theorem lt_ceilDiv_iff {c : Nat} (hc : 0 < c) (n m : Nat) :
    m < (n + c - 1) / c ↔ m * c < n := by
  rw [Nat.lt_iff_add_one_le, Nat.le_div_iff_mul_le hc]
  have h : (m + 1) * c = m * c + c := by ring
  rw [h]
  generalize m * c = M
  omega

theorem mem_offsets {n c o : Nat} (hc : 0 < c) :
    o ∈ offsets n c ↔ ∃ m, o = m * c ∧ m * c < n := by
  unfold offsets
  rw [List.mem_map]
  constructor
  · rintro ⟨m, hm, rfl⟩
    rw [List.mem_range] at hm
    exact ⟨m, rfl, (lt_ceilDiv_iff hc n m).mp hm⟩
  · rintro ⟨m, rfl, hm⟩
    exact ⟨m, List.mem_range.mpr ((lt_ceilDiv_iff hc n m).mpr hm), rfl⟩

theorem base_lt {c : Nat} (hc : 0 < c) (i : Nat) : i < i / c * c + c :=
  calc i = c * (i / c) + i % c := (Nat.div_add_mod i c).symm
    _ < c * (i / c) + c := Nat.add_lt_add_left (Nat.mod_lt i hc) _
    _ = i / c * c + c := by rw [Nat.mul_comm]

theorem div_mul_unique {c : Nat} (hc : 0 < c) {m i : Nat}
    (h1 : m * c ≤ i) (h2 : i < m * c + c) : i / c = m :=
  Nat.div_eq_of_lt_le h1 (by rw [Nat.succ_mul]; exact h2)

theorem scale_region_iff {s : Nat} (hs : 0 < s) (o len j : Nat) :
    (o * s ≤ j ∧ j < o * s + len * s) ↔ (o ≤ j / s ∧ j / s < o + len) := by
  rw [Nat.le_div_iff_mul_le hs, Nat.div_lt_iff_lt_mul hs]
  constructor
  · rintro ⟨h1, h2⟩
    refine ⟨h1, ?_⟩
    calc j < o * s + len * s := h2
      _ = (o + len) * s := by ring
  · rintro ⟨h1, h2⟩
    refine ⟨h1, ?_⟩
    calc j < (o + len) * s := h2
      _ = o * s + len * s := by ring

theorem cover1d {n c s : Nat} (hc : 0 < c) (hs : 0 < s) {j : Nat}
    (hj : j < n * s) :
    ∃ o, (∃ m, o = m * c ∧ m * c < n) ∧
      (o * s ≤ j ∧ j < o * s + min c (n - o) * s) ∧
      (∀ o', (∃ m', o' = m' * c ∧ m' * c < n) →
        o' * s ≤ j → j < o' * s + min c (n - o') * s → o' = o) ∧
      o = j / s / c * c := by
  have hjn : j / s < n := (Nat.div_lt_iff_lt_mul hs).mpr hj
  refine ⟨j / s / c * c, ⟨j / s / c, rfl, ?_⟩, ?_, ?_, rfl⟩
  · exact Nat.lt_of_le_of_lt (Nat.div_mul_le_self (j / s) c) hjn
  · rw [scale_region_iff hs]
    refine ⟨Nat.div_mul_le_self (j / s) c, ?_⟩
    by_cases hcase : c ≤ n - j / s / c * c
    · rw [Nat.min_eq_left hcase]
      exact base_lt hc (j / s)
    · rw [Nat.min_eq_right (Nat.le_of_not_le hcase)]
      rw [Nat.add_sub_cancel' (Nat.le_of_lt
        (Nat.lt_of_le_of_lt (Nat.div_mul_le_self (j / s) c) hjn))]
      exact hjn
  · rintro o' ⟨m', rfl, hm'n⟩ h1 h2
    obtain ⟨g1, g2⟩ := (scale_region_iff hs (m' * c) _ j).mp ⟨h1, h2⟩
    have g3 : j / s < m' * c + c :=
      Nat.lt_of_lt_of_le g2 (Nat.add_le_add_left (Nat.min_le_left _ _) _)
    rw [div_mul_unique hc g1 g3]

theorem inRegion_cell (s : Nat) (cu : Cube) {a b e : Nat}
    (ha : a < cu.vol.d) (hb : b < cu.vol.h) (he : e < cu.vol.w) :
    inRegion s cu (cu.o1 * s + a) (cu.o2 * s + b) (cu.o3 * s + e) :=
  ⟨Nat.le_add_right _ _, Nat.add_lt_add_left ha _,
   Nat.le_add_right _ _, Nat.add_lt_add_left hb _,
   Nat.le_add_right _ _, Nat.add_lt_add_left he _⟩

theorem regionFree_none {s : Nat} {buf : Buffer} {cu : Cube} {x y z : Nat}
    (hf : regionFree s buf cu) (hr : inRegion s cu x y z) :
    buf x y z = none := by
  obtain ⟨h1, h2, h3, h4, h5, h6⟩ := hr
  have h := hf (x - cu.o1 * s) (by omega) (y - cu.o2 * s) (by omega)
    (z - cu.o3 * s) (by omega)
  rwa [Nat.add_sub_cancel' h1, Nat.add_sub_cancel' h3,
    Nat.add_sub_cancel' h5] at h

theorem regionFree_of_none {s : Nat} {buf : Buffer} {cu : Cube}
    (hf : ∀ x y z, inRegion s cu x y z → buf x y z = none) :
    regionFree s buf cu := by
  intro a ha b hb e he
  exact hf _ _ _ (inRegion_cell s cu ha hb he)

theorem placeAll_ok_of_disjoint (s : Nat) :
    ∀ (cus : List Cube) (buf : Buffer),
    (∀ cu, cu ∈ cus → ∀ x y z, inRegion s cu x y z → buf x y z = none) →
    List.Pairwise (regionDisjoint s) cus →
    ∃ buf', placeAll s buf cus = Except.ok buf'
      ∧ (∀ x y z, (∀ cu, cu ∈ cus → ¬inRegion s cu x y z) →
          buf' x y z = buf x y z)
      ∧ (∀ cu, cu ∈ cus → ∀ x y z, inRegion s cu x y z →
          buf' x y z = some (cu.vol.data (x - cu.o1 * s) (y - cu.o2 * s)
            (z - cu.o3 * s))) := by
  intro cus
  induction cus with
  | nil =>
      intro buf _ _
      exact ⟨buf, rfl, fun _ _ _ _ => rfl,
        fun cu hcu => absurd hcu (List.not_mem_nil cu)⟩
  | cons cu rest ih =>
      intro buf hfree hpw
      have hfreecu : regionFree s buf cu :=
        regionFree_of_none (hfree cu (List.mem_cons_self cu rest))
      have hdis : ∀ cu', cu' ∈ rest → regionDisjoint s cu cu' :=
        fun cu' h' => (List.pairwise_cons.mp hpw).1 cu' h'
      set overlay : Buffer := fun x y z =>
        if inRegion s cu x y z then
          some (cu.vol.data (x - cu.o1 * s) (y - cu.o2 * s) (z - cu.o3 * s))
        else buf x y z with hoverlay
      have hplace : place s buf cu = Except.ok overlay := by
        unfold place
        rw [if_pos hfreecu]
      have hfree' : ∀ cu', cu' ∈ rest → ∀ x y z, inRegion s cu' x y z →
          overlay x y z = none := by
        intro cu' h' x y z hr
        rw [hoverlay]
        simp only
        rw [if_neg (fun hcu => (hdis cu' h') x y z ⟨hcu, hr⟩)]
        exact hfree cu' (List.mem_cons_of_mem cu h') x y z hr
      obtain ⟨buf'', hok, huntouched, hval⟩ :=
        ih overlay hfree' (List.pairwise_cons.mp hpw).2
      have hstep : placeAll s buf (cu :: rest) = placeAll s overlay rest := by
        show (match place s buf cu with
          | Except.error e => Except.error e
          | Except.ok buf2 => placeAll s buf2 rest) = placeAll s overlay rest
        rw [hplace]
      refine ⟨buf'', by rw [hstep]; exact hok, ?_, ?_⟩
      · intro x y z hnone
        rw [huntouched x y z
          (fun cu' h' => hnone cu' (List.mem_cons_of_mem cu h'))]
        rw [hoverlay]
        simp only
        rw [if_neg (hnone cu (List.mem_cons_self cu rest))]
      · intro cu0 hcu0 x y z hr
        rcases List.mem_cons.mp hcu0 with hhead | htail
        · subst hhead
          have hnotrest : ∀ cu', cu' ∈ rest → ¬inRegion s cu' x y z :=
            fun cu' h' hr' => (hdis cu' h') x y z ⟨hr, hr'⟩
          rw [huntouched x y z hnotrest, hoverlay]
          simp only
          rw [if_pos hr]
        · exact hval cu0 htail x y z hr

theorem place_mono {s : Nat} {buf buf' : Buffer} {cu : Cube}
    (h : place s buf cu = Except.ok buf') :
    ∀ x y z q, buf x y z = some q → buf' x y z = some q := by
  intro x y z q hsome
  unfold place at h
  by_cases hf : regionFree s buf cu
  · rw [if_pos hf] at h
    have hb : buf' = fun x y z =>
        if inRegion s cu x y z then
          some (cu.vol.data (x - cu.o1 * s) (y - cu.o2 * s) (z - cu.o3 * s))
        else buf x y z := (Except.ok.injEq _ _).mp h.symm
    rw [hb]
    simp only
    by_cases hr : inRegion s cu x y z
    · exact absurd (regionFree_none hf hr) (by rw [hsome]; exact fun hc => nomatch hc)
    · rw [if_neg hr]
      exact hsome
  · rw [if_neg hf] at h
    exact nomatch h

theorem placeAll_mono {s : Nat} :
    ∀ {cus : List Cube} {buf buf' : Buffer},
    placeAll s buf cus = Except.ok buf' →
    ∀ x y z q, buf x y z = some q → buf' x y z = some q := by
  intro cus
  induction cus with
  | nil =>
      intro buf buf' h x y z q hsome
      have hb : buf' = buf := ((Except.ok.injEq _ _).mp h).symm
      rw [hb]
      exact hsome
  | cons cu rest ih =>
      intro buf buf' h x y z q hsome
      unfold placeAll at h
      cases hp : place s buf cu with
      | error e =>
          rw [hp] at h
          exact nomatch h
      | ok b2 =>
          rw [hp] at h
          exact ih h x y z q (place_mono hp x y z q hsome)

theorem placeAll_ok_regionFree {s : Nat} :
    ∀ {cus : List Cube} {buf buf' : Buffer},
    placeAll s buf cus = Except.ok buf' →
    ∀ cu', cu' ∈ cus → regionFree s buf cu' := by
  intro cus
  induction cus with
  | nil =>
      intro buf buf' _ cu' hcu'
      exact absurd hcu' (List.not_mem_nil cu')
  | cons cu rest ih =>
      intro buf buf' h cu' hcu'
      unfold placeAll at h
      cases hp : place s buf cu with
      | error e =>
          rw [hp] at h
          exact nomatch h
      | ok b2 =>
          rw [hp] at h
          rcases List.mem_cons.mp hcu' with hhead | htail
          · subst hhead
            unfold place at hp
            by_cases hf : regionFree s buf cu'
            · exact hf
            · rw [if_neg hf] at hp
              exact nomatch hp
          · have hb2 : regionFree s b2 cu' := ih h cu' htail
            intro a ha b hb e he
            cases hbuf : buf (cu'.o1 * s + a) (cu'.o2 * s + b) (cu'.o3 * s + e) with
            | none => rfl
            | some q =>
                have := place_mono hp _ _ _ q hbuf
                rw [hb2 a ha b hb e he] at this
                exact nomatch this

theorem placeAll_error_overlap {s : Nat} :
    ∀ {cus : List Cube} {buf : Buffer} {e : TileError},
    placeAll s buf cus = Except.error e → e = TileError.overlapError := by
  intro cus
  induction cus with
  | nil =>
      intro buf e h
      exact absurd h (by unfold placeAll; exact fun h => nomatch h)
  | cons cu rest ih =>
      intro buf e h
      unfold placeAll at h
      unfold place at h
      by_cases hf : regionFree s buf cu
      · rw [if_pos hf] at h
        exact ih h
      · rw [if_neg hf] at h
        exact (Except.error.injEq _ _).mp h.symm |>.symm ▸ rfl

theorem placeAll_ok_pairwise {s : Nat} :
    ∀ {cus : List Cube} {buf buf' : Buffer},
    placeAll s buf cus = Except.ok buf' →
    List.Pairwise (regionDisjoint s) cus := by
  intro cus
  induction cus with
  | nil =>
      intro buf buf' _
      exact List.Pairwise.nil
  | cons cu rest ih =>
      intro buf buf' h
      unfold placeAll at h
      cases hp : place s buf cu with
      | error e =>
          rw [hp] at h
          exact nomatch h
      | ok b2 =>
          rw [hp] at h
          refine List.pairwise_cons.mpr ⟨?_, ih h⟩
          intro cu' h' x y z hboth
          obtain ⟨hr, hr'⟩ := hboth
          have hfree' : regionFree s b2 cu' := placeAll_ok_regionFree h cu' h'
          have hnone : b2 x y z = none := regionFree_none hfree' hr'
          unfold place at hp
          by_cases hf : regionFree s buf cu
          · rw [if_pos hf] at hp
            have hb2 : b2 = fun x y z =>
                if inRegion s cu x y z then
                  some (cu.vol.data (x - cu.o1 * s) (y - cu.o2 * s)
                    (z - cu.o3 * s))
                else buf x y z := (Except.ok.injEq _ _).mp hp.symm
            rw [hb2] at hnone
            simp only at hnone
            rw [if_pos hr] at hnone
            exact nomatch hnone
          · rw [if_neg hf] at hp
            exact nomatch hp

theorem mem_split {v : Volume} {c : Nat} (hc : 0 < c) (cu : Cube) :
    cu ∈ split v c ↔ ∃ m1 m2 m3,
      m1 * c < v.d ∧ m2 * c < v.h ∧ m3 * c < v.w ∧
      cu = mkCube v c (m1 * c, m2 * c, m3 * c) := by
  unfold split tripleOffsets
  rw [List.mem_map]
  constructor
  · rintro ⟨⟨a1, a2, a3⟩, ho, rfl⟩
    rw [List.mem_product] at ho
    obtain ⟨h1, h23⟩ := ho
    rw [List.mem_product] at h23
    obtain ⟨h2, h3⟩ := h23
    obtain ⟨m1, rfl, hm1⟩ := (mem_offsets hc).mp h1
    obtain ⟨m2, rfl, hm2⟩ := (mem_offsets hc).mp h2
    obtain ⟨m3, rfl, hm3⟩ := (mem_offsets hc).mp h3
    exact ⟨m1, m2, m3, hm1, hm2, hm3, rfl⟩
  · rintro ⟨m1, m2, m3, hm1, hm2, hm3, rfl⟩
    refine ⟨(m1 * c, m2 * c, m3 * c), ?_, rfl⟩
    rw [List.mem_product]
    exact ⟨(mem_offsets hc).mpr ⟨m1, rfl, hm1⟩,
      List.mem_product.mpr ⟨(mem_offsets hc).mpr ⟨m2, rfl, hm2⟩,
        (mem_offsets hc).mpr ⟨m3, rfl, hm3⟩⟩⟩

theorem offsets_nodup (n c : Nat) (hc : 0 < c) : (offsets n c).Nodup :=
  List.Nodup.map (fun a b h => Nat.eq_of_mul_eq_mul_right hc h)
    (List.nodup_range _)

theorem split_nodup (v : Volume) (c : Nat) (hc : 0 < c) :
    (split v c).Nodup := by
  unfold split tripleOffsets
  refine List.Nodup.map ?_ ?_
  · intro o o' h
    have h1 : o.1 = o'.1 := congrArg Cube.o1 h
    have h2 : o.2.1 = o'.2.1 := congrArg Cube.o2 h
    have h3 : o.2.2 = o'.2.2 := congrArg Cube.o3 h
    exact Prod.ext h1 (Prod.ext h2 h3)
  · exact ((offsets_nodup _ _ hc).product
      ((offsets_nodup _ _ hc).product (offsets_nodup _ _ hc)))

/-- Tag each cube of a tiling with its processed (super-resolved) volume,
keeping the original offsets. -/
def processCubes (P : Cube → Volume) (cus : List Cube) : List Cube :=
  cus.map (fun cu => ⟨cu.o1, cu.o2, cu.o3, P cu⟩)

theorem split_offsets_inj {v : Volume} {c : Nat} (hc : 0 < c)
    {cu cu' : Cube} (h : cu ∈ split v c) (h' : cu' ∈ split v c)
    (e1 : cu.o1 = cu'.o1) (e2 : cu.o2 = cu'.o2) (e3 : cu.o3 = cu'.o3) :
    cu = cu' := by
  obtain ⟨m1, m2, m3, _, _, _, rfl⟩ := (mem_split hc cu).mp h
  obtain ⟨n1, n2, n3, _, _, _, rfl⟩ := (mem_split hc cu').mp h'
  simp only [mkCube] at e1 e2 e3
  rw [show (m1 * c, m2 * c, m3 * c) = (n1 * c, n2 * c, n3 * c) from
    Prod.ext e1 (Prod.ext e2 e3)]

theorem processCubes_nodup {v : Volume} {c : Nat} (hc : 0 < c)
    (P : Cube → Volume) : (processCubes P (split v c)).Nodup := by
  unfold processCubes
  refine List.Nodup.map_on ?_ (split_nodup v c hc)
  intro x hx y hy hxy
  have e1 := congrArg Cube.o1 hxy
  have e2 := congrArg Cube.o2 hxy
  have e3 := congrArg Cube.o3 hxy
  exact split_offsets_inj hc hx hy e1 e2 e3

theorem processed_region {v : Volume} {c s : Nat} (hc : 0 < c)
    {P : Cube → Volume}
    (hP : ∀ cu, cu ∈ split v c → (P cu).d = cu.vol.d * s ∧
      (P cu).h = cu.vol.h * s ∧ (P cu).w = cu.vol.w * s)
    {pcu : Cube} (hmem : pcu ∈ processCubes P (split v c)) :
    ∃ m1 m2 m3, m1 * c < v.d ∧ m2 * c < v.h ∧ m3 * c < v.w ∧
      pcu.o1 = m1 * c ∧ pcu.o2 = m2 * c ∧ pcu.o3 = m3 * c ∧
      pcu.vol.d = min c (v.d - m1 * c) * s ∧
      pcu.vol.h = min c (v.h - m2 * c) * s ∧
      pcu.vol.w = min c (v.w - m3 * c) * s ∧
      pcu = ⟨m1 * c, m2 * c, m3 * c,
        P (mkCube v c (m1 * c, m2 * c, m3 * c))⟩ := by
  unfold processCubes at hmem
  rw [List.mem_map] at hmem
  obtain ⟨cu, hcu, rfl⟩ := hmem
  obtain ⟨m1, m2, m3, h1, h2, h3, rfl⟩ := (mem_split hc cu).mp hcu
  obtain ⟨e1, e2, e3⟩ := hP _ hcu
  exact ⟨m1, m2, m3, h1, h2, h3, rfl, rfl, rfl, e1, e2, e3, rfl⟩

theorem processed_cover {v : Volume} {c s : Nat} (hc : 0 < c) (hs : 0 < s)
    {P : Cube → Volume}
    (hP : ∀ cu, cu ∈ split v c → (P cu).d = cu.vol.d * s ∧
      (P cu).h = cu.vol.h * s ∧ (P cu).w = cu.vol.w * s)
    {x y z : Nat} (hx : x < v.d * s) (hy : y < v.h * s) (hz : z < v.w * s) :
    ∃ pcu, pcu ∈ processCubes P (split v c) ∧ inRegion s pcu x y z ∧
      pcu.o1 = x / s / c * c ∧ pcu.o2 = y / s / c * c ∧
      pcu.o3 = z / s / c * c ∧
      ∀ pcu', pcu' ∈ processCubes P (split v c) → inRegion s pcu' x y z →
        pcu' = pcu := by
  obtain ⟨o1, ⟨m1, ho1, hm1⟩, hr1, hu1, hb1⟩ := cover1d hc hs hx
  obtain ⟨o2, ⟨m2, ho2, hm2⟩, hr2, hu2, hb2⟩ := cover1d hc hs hy
  obtain ⟨o3, ⟨m3, ho3, hm3⟩, hr3, hu3, hb3⟩ := cover1d hc hs hz
  subst ho1
  subst ho2
  subst ho3
  have hcu0mem : mkCube v c (m1 * c, m2 * c, m3 * c) ∈ split v c :=
    (mem_split hc _).mpr ⟨m1, m2, m3, hm1, hm2, hm3, rfl⟩
  obtain ⟨ed, eh, ew⟩ := hP _ hcu0mem
  refine ⟨⟨m1 * c, m2 * c, m3 * c, P (mkCube v c (m1 * c, m2 * c, m3 * c))⟩,
    ?_, ?_, hb1, hb2, hb3, ?_⟩
  · unfold processCubes
    rw [List.mem_map]
    exact ⟨_, hcu0mem, rfl⟩
  · refine ⟨hr1.1, ?_, hr2.1, ?_, hr3.1, ?_⟩
    · show x < m1 * c * s + (P (mkCube v c (m1 * c, m2 * c, m3 * c))).d
      rw [ed]
      exact hr1.2
    · show y < m2 * c * s + (P (mkCube v c (m1 * c, m2 * c, m3 * c))).h
      rw [eh]
      exact hr2.2
    · show z < m3 * c * s + (P (mkCube v c (m1 * c, m2 * c, m3 * c))).w
      rw [ew]
      exact hr3.2
  · intro pcu' hmem' hreg'
    obtain ⟨n1, n2, n3, g1, g2, g3, f1, f2, f3, d1, d2, d3, hform⟩ :=
      processed_region hc hP hmem'
    obtain ⟨a1, a2, a3, a4, a5, a6⟩ := hreg'
    rw [f1] at a1 a2
    rw [d1] at a2
    rw [f2] at a3 a4
    rw [d2] at a4
    rw [f3] at a5 a6
    rw [d3] at a6
    have q1 : n1 * c = m1 * c := hu1 (n1 * c) ⟨n1, rfl, g1⟩ a1 a2
    have q2 : n2 * c = m2 * c := hu2 (n2 * c) ⟨n2, rfl, g2⟩ a3 a4
    have q3 : n3 * c = m3 * c := hu3 (n3 * c) ⟨n3, rfl, g3⟩ a5 a6
    rw [hform, q1, q2, q3]

theorem processed_pairwise {v : Volume} {c s : Nat} (hc : 0 < c) (hs : 0 < s)
    {P : Cube → Volume}
    (hP : ∀ cu, cu ∈ split v c → (P cu).d = cu.vol.d * s ∧
      (P cu).h = cu.vol.h * s ∧ (P cu).w = cu.vol.w * s) :
    List.Pairwise (regionDisjoint s) (processCubes P (split v c)) := by
  refine (processCubes_nodup hc P).pairwise_of_forall_ne ?_
  intro a ha b hb hne x y z hboth
  obtain ⟨hra, hrb⟩ := hboth
  obtain ⟨m1, m2, m3, g1, g2, g3, f1, f2, f3, d1, d2, d3, _⟩ :=
    processed_region hc hP ha
  have hsub : ∀ m n : Nat, m * c < n →
      m * c * s + min c (n - m * c) * s ≤ n * s := by
    intro m n hmn
    have h1 : m * c + min c (n - m * c) ≤ n := by
      have h2 := Nat.min_le_right c (n - m * c)
      omega
    calc m * c * s + min c (n - m * c) * s
        = (m * c + min c (n - m * c)) * s := by ring
      _ ≤ n * s := Nat.mul_le_mul_right s h1
  have hx : x < v.d * s := by
    obtain ⟨_, a2, _, _, _, _⟩ := hra
    rw [f1] at a2
    rw [d1] at a2
    exact Nat.lt_of_lt_of_le a2 (hsub m1 v.d g1)
  have hy : y < v.h * s := by
    obtain ⟨_, _, _, a4, _, _⟩ := hra
    rw [f2] at a4
    rw [d2] at a4
    exact Nat.lt_of_lt_of_le a4 (hsub m2 v.h g2)
  have hz : z < v.w * s := by
    obtain ⟨_, _, _, _, _, a6⟩ := hra
    rw [f3] at a6
    rw [d3] at a6
    exact Nat.lt_of_lt_of_le a6 (hsub m3 v.w g3)
  obtain ⟨pc, hpc, hrc, _, _, _, huniq⟩ := processed_cover hc hs hP hx hy hz
  exact hne ((huniq a ha hra).trans (huniq b hb hrb).symm)

theorem recombine_split_ok (v : Volume) (c s : Nat) (P : Cube → Volume)
    (hc : 0 < c) (hs : 0 < s)
    (hP : ∀ cu, cu ∈ split v c → (P cu).d = cu.vol.d * s ∧
      (P cu).h = cu.vol.h * s ∧ (P cu).w = cu.vol.w * s) :
    ∃ out, recombine (processCubes P (split v c)) v.d v.h v.w s =
        Except.ok out
      ∧ out.d = v.d * s ∧ out.h = v.h * s ∧ out.w = v.w * s
      ∧ ∀ pcu, pcu ∈ processCubes P (split v c) → ∀ a b e,
          a < pcu.vol.d → b < pcu.vol.h → e < pcu.vol.w →
          out.data (pcu.o1 * s + a) (pcu.o2 * s + b) (pcu.o3 * s + e) =
            pcu.vol.data a b e := by
  have hpw := processed_pairwise hc hs hP
  obtain ⟨buf', hok, huntouched, hval⟩ :=
    placeAll_ok_of_disjoint s (processCubes P (split v c))
      (fun _ _ _ => none) (fun _ _ _ _ _ _ => rfl) hpw
  have hcov : covered buf' v.d v.h v.w s := by
    intro x hx y hy z hz
    obtain ⟨pc, hpc, hrc, _, _, _, _⟩ := processed_cover hc hs hP hx hy hz
    rw [hval pc hpc x y z hrc]
    rfl
  refine ⟨⟨v.d * s, v.h * s, v.w * s, fun x y z => (buf' x y z).getD 0⟩,
    ?_, rfl, rfl, rfl, ?_⟩
  · unfold recombine
    rw [hok]
    show (if covered buf' v.d v.h v.w s then
        Except.ok (⟨v.d * s, v.h * s, v.w * s,
          fun x y z => (buf' x y z).getD 0⟩ : Volume)
      else Except.error TileError.incompleteCoverageError) = _
    rw [if_pos hcov]
  · intro pcu hmem a b e ha hb he
    have hr := inRegion_cell s pcu ha hb he
    show (buf' (pcu.o1 * s + a) (pcu.o2 * s + b) (pcu.o3 * s + e)).getD 0 =
      pcu.vol.data a b e
    rw [hval pcu hmem _ _ _ hr]
    rw [Nat.add_sub_cancel_left, Nat.add_sub_cancel_left,
      Nat.add_sub_cancel_left]
    rfl

theorem recombine_overlap {cus : List Cube} {d0 h0 w0 s : Nat}
    (hnp : ¬List.Pairwise (regionDisjoint s) cus) :
    recombine cus d0 h0 w0 s = Except.error TileError.overlapError := by
  unfold recombine
  cases hres : placeAll s (fun _ _ _ => none) cus with
  | error e =>
      rw [placeAll_error_overlap hres]
  | ok buf =>
      exact absurd (placeAll_ok_pairwise hres) hnp

theorem recombine_incomplete {cus : List Cube} {d0 h0 w0 s : Nat}
    (hpw : List.Pairwise (regionDisjoint s) cus)
    (hmiss : ∃ x, x < d0 * s ∧ ∃ y, y < h0 * s ∧ ∃ z, z < w0 * s ∧
      ∀ cu, cu ∈ cus → ¬inRegion s cu x y z) :
    recombine cus d0 h0 w0 s =
      Except.error TileError.incompleteCoverageError := by
  obtain ⟨buf', hok, huntouched, _⟩ :=
    placeAll_ok_of_disjoint s cus (fun _ _ _ => none)
      (fun _ _ _ _ _ _ => rfl) hpw
  obtain ⟨x, hx, y, hy, z, hz, hnone⟩ := hmiss
  have hnc : ¬covered buf' d0 h0 w0 s := by
    intro hcv
    have h1 := hcv x hx y hy z hz
    rw [huntouched x y z hnone] at h1
    exact nomatch h1
  unfold recombine
  rw [hok]
  show (if covered buf' d0 h0 w0 s then
      Except.ok (⟨d0 * s, h0 * s, w0 * s,
        fun x y z => (buf' x y z).getD 0⟩ : Volume)
    else Except.error TileError.incompleteCoverageError) = _
  rw [if_neg hnc]

/-- Claim C2: recombining the processed cubes produced by `split` places
each cube at `offset * scaleFactor` in a fresh output volume of shape
`originalShape * scaleFactor` with every output voxel written exactly once
(whether or not the dimensions divide evenly by `cubeSize`); `recombine`
fails with `OverlapError` when two cubes would write the same output voxel,
and with `IncompleteCoverageError` when the cubes write no voxel twice but
leave some output voxel unwritten. -/
theorem recombine_spec :
    (∀ (v : Volume) (c s : Nat) (P : Cube → Volume), 0 < c → 0 < s →
      (∀ cu, cu ∈ split v c → (P cu).d = cu.vol.d * s ∧
        (P cu).h = cu.vol.h * s ∧ (P cu).w = cu.vol.w * s) →
      (∀ x y z, x < v.d * s → y < v.h * s → z < v.w * s →
        ∃ pcu, pcu ∈ processCubes P (split v c) ∧ inRegion s pcu x y z ∧
          ∀ pcu', pcu' ∈ processCubes P (split v c) →
            inRegion s pcu' x y z → pcu' = pcu)
      ∧ ∃ out, recombine (processCubes P (split v c)) v.d v.h v.w s =
            Except.ok out
          ∧ out.d = v.d * s ∧ out.h = v.h * s ∧ out.w = v.w * s
          ∧ ∀ pcu, pcu ∈ processCubes P (split v c) → ∀ a b e,
              a < pcu.vol.d → b < pcu.vol.h → e < pcu.vol.w →
              out.data (pcu.o1 * s + a) (pcu.o2 * s + b) (pcu.o3 * s + e) =
                pcu.vol.data a b e)
    ∧ (∀ (cus : List Cube) (d0 h0 w0 s : Nat),
        (¬List.Pairwise (regionDisjoint s) cus →
          recombine cus d0 h0 w0 s = Except.error TileError.overlapError)
        ∧ (List.Pairwise (regionDisjoint s) cus →
          (∃ x, x < d0 * s ∧ ∃ y, y < h0 * s ∧ ∃ z, z < w0 * s ∧
            ∀ cu, cu ∈ cus → ¬inRegion s cu x y z) →
          recombine cus d0 h0 w0 s =
            Except.error TileError.incompleteCoverageError)) := by
  constructor
  · intro v c s P hc hs hP
    constructor
    · intro x y z hx hy hz
      obtain ⟨pcu, h1, h2, _, _, _, h3⟩ := processed_cover hc hs hP hx hy hz
      exact ⟨pcu, h1, h2, h3⟩
    · exact recombine_split_ok v c s P hc hs hP
  · intro cus d0 h0 w0 s
    exact ⟨recombine_overlap, fun hpw hmiss => recombine_incomplete hpw hmiss⟩

theorem recombine_spec_witness :
    (∃ out, recombine
        (processCubes
          (fun cu => ⟨cu.vol.d * 2, cu.vol.h * 2, cu.vol.w * 2,
            fun _ _ _ => (7 : ℚ)⟩)
          (split ⟨3, 1, 1, fun i _ _ => (i : ℚ)⟩ 2))
        3 1 1 2 = Except.ok out
      ∧ out.d = 3 * 2 ∧ out.h = 1 * 2 ∧ out.w = 1 * 2
      ∧ ∀ pcu, pcu ∈ processCubes
          (fun cu => ⟨cu.vol.d * 2, cu.vol.h * 2, cu.vol.w * 2,
            fun _ _ _ => (7 : ℚ)⟩)
          (split ⟨3, 1, 1, fun i _ _ => (i : ℚ)⟩ 2) → ∀ a b e,
          a < pcu.vol.d → b < pcu.vol.h → e < pcu.vol.w →
          out.data (pcu.o1 * 2 + a) (pcu.o2 * 2 + b) (pcu.o3 * 2 + e) =
            pcu.vol.data a b e)
    ∧ recombine [⟨0, 0, 0, ⟨1, 1, 1, fun _ _ _ => (0 : ℚ)⟩⟩,
        ⟨0, 0, 0, ⟨1, 1, 1, fun _ _ _ => (0 : ℚ)⟩⟩] 1 1 1 1 =
        Except.error TileError.overlapError
    ∧ recombine ([] : List Cube) 1 1 1 1 =
        Except.error TileError.incompleteCoverageError :=
  ⟨((recombine_spec.1 ⟨3, 1, 1, fun i _ _ => (i : ℚ)⟩ 2 2
      (fun cu => ⟨cu.vol.d * 2, cu.vol.h * 2, cu.vol.w * 2,
        fun _ _ _ => (7 : ℚ)⟩)
      (by decide) (by decide) (fun cu _ => ⟨rfl, rfl, rfl⟩)).2),
   ((recombine_spec.2 [⟨0, 0, 0, ⟨1, 1, 1, fun _ _ _ => (0 : ℚ)⟩⟩,
        ⟨0, 0, 0, ⟨1, 1, 1, fun _ _ _ => (0 : ℚ)⟩⟩] 1 1 1 1).1
      (fun hp => ((List.pairwise_cons.mp hp).1 _
          (List.mem_cons_self _ _)) 0 0 0
        ⟨by decide, by decide⟩)),
   ((recombine_spec.2 ([] : List Cube) 1 1 1 1).2 List.Pairwise.nil
      ⟨0, by decide, 0, by decide, 0, by decide,
        fun cu hcu => absurd hcu (List.not_mem_nil cu)⟩)⟩

/-- Modelled from the spec: mean squared error between two same-shape
images (the quantity whose vanishing makes PSNR undefined, §4.5). -/
def mse (a b : Image) : ℚ :=
  (Finset.sum (Finset.range a.h) fun j =>
    Finset.sum (Finset.range a.w) fun k =>
      (a.data j k - b.data j k) ^ 2) / ((a.h * a.w : Nat) : ℚ)

/-- Result of the PSNR computation.  `finite r` carries `r = MAX^2 / MSE`
(with `MAX = 1` for [0,1]-normalized data); the actual PSNR is the
monotone transform `10 * log10 r`, which is omitted since only the
zero-MSE dichotomy is at stake. -/
inductive PSNRResult
  | identicalImagesError
  | finite (r : ℚ)
deriving DecidableEq

/-- Modelled from the spec: `utils.PSNR` is not under `src/`; §4.5 requires
PSNR to be undefined at zero mean squared error, signalling
`IdenticalImagesError` or returning +infinity, one of the two picked
consistently — the error signal is the choice modelled here. -/
def psnr (a b : Image) : PSNRResult :=
  if mse a b = 0 then PSNRResult.identicalImagesError
  else PSNRResult.finite (1 / mse a b)

/-- Claim C8: for every pair of images with mean squared error exactly zero
(in particular an image against itself), the PSNR computation signals
`IdenticalImagesError` — the same one of the two permitted behaviours for
every such pair, hence consistent. -/
theorem psnr_spec :
    (∀ a b : Image, mse a b = 0 →
      psnr a b = PSNRResult.identicalImagesError)
    ∧ (∀ a : Image, psnr a a = PSNRResult.identicalImagesError) := by
  constructor
  · intro a b h
    unfold psnr
    rw [if_pos h]
  · intro a
    unfold psnr
    rw [if_pos (by simp [mse])]

theorem psnr_spec_witness :
    psnr ⟨1, 2, fun _ k => (k : ℚ)⟩ ⟨1, 2, fun _ k => (k : ℚ)⟩ =
      PSNRResult.identicalImagesError :=
  psnr_spec.1 ⟨1, 2, fun _ k => (k : ℚ)⟩ ⟨1, 2, fun _ k => (k : ℚ)⟩
    (by simp [mse])

/-- Mean intensity of the 7x7 window of `a` at position `(p, q)`. -/
def winMean (a : Image) (p q : Nat) : ℚ :=
  (Finset.sum (Finset.range 7) fun u =>
    Finset.sum (Finset.range 7) fun t => a.data (p + u) (q + t)) / 49

/-- Windowed covariance of `a` and `b` at position `(p, q)`; the variance
of `a` is `winCov a a`. -/
def winCov (a b : Image) (p q : Nat) : ℚ :=
  (Finset.sum (Finset.range 7) fun u =>
    Finset.sum (Finset.range 7) fun t =>
      (a.data (p + u) (q + t) - winMean a p q) *
      (b.data (p + u) (q + t) - winMean b p q)) / 49

/-- SSIM stabilization constant `(K1 * L)^2` with `K1 = 0.01`. -/
def ssimC1 (L : ℚ) : ℚ := (L / 100) ^ 2

/-- SSIM stabilization constant `(K2 * L)^2` with `K2 = 0.03`. -/
def ssimC2 (L : ℚ) : ℚ := (3 * L / 100) ^ 2

/-- The local SSIM value at window position `(p, q)`. -/
def ssimTerm (a b : Image) (L : ℚ) (p q : Nat) : ℚ :=
  ((2 * winMean a p q * winMean b p q + ssimC1 L) *
    (2 * winCov a b p q + ssimC2 L)) /
  ((winMean a p q ^ 2 + winMean b p q ^ 2 + ssimC1 L) *
    (winCov a a p q + winCov b b p q + ssimC2 L))

/-- Modelled from the spec: SSIM in the standard windowed local-statistics
formulation (§4.5) with a 7x7 uniform window and data range `L`; the mean
of the local SSIM values over all window positions.  The scoring module is
not under `src/`. -/
def ssim (a b : Image) (L : ℚ) : ℚ :=
  (Finset.sum (Finset.range (a.h - 6)) fun p =>
    Finset.sum (Finset.range (a.w - 6)) fun q => ssimTerm a b L p q) /
  (((a.h - 6) * (a.w - 6) : Nat) : ℚ)

theorem ssimTerm_self (a : Image) (L : ℚ) (hL : 0 < L) (p q : Nat) :
    ssimTerm a a L p q = 1 := by
  unfold ssimTerm
  have hc1 : 0 < ssimC1 L := by
    unfold ssimC1
    positivity
  have hc2 : 0 < ssimC2 L := by
    unfold ssimC2
    positivity
  have hv : 0 ≤ winCov a a p q := by
    unfold winCov
    refine div_nonneg ?_ (by norm_num)
    refine Finset.sum_nonneg fun u _ => Finset.sum_nonneg fun t _ => ?_
    exact mul_self_nonneg _
  have hden : 0 < (winMean a p q ^ 2 + winMean a p q ^ 2 + ssimC1 L) *
      (winCov a a p q + winCov a a p q + ssimC2 L) := by
    have h1 : 0 < winMean a p q ^ 2 + winMean a p q ^ 2 + ssimC1 L := by
      have := sq_nonneg (winMean a p q)
      linarith
    have h2 : 0 < winCov a a p q + winCov a a p q + ssimC2 L := by
      linarith
    exact mul_pos h1 h2
  have hnum : (2 * winMean a p q * winMean a p q + ssimC1 L) *
      (2 * winCov a a p q + ssimC2 L) =
      (winMean a p q ^ 2 + winMean a p q ^ 2 + ssimC1 L) *
      (winCov a a p q + winCov a a p q + ssimC2 L) := by
    ring
  rw [hnum]
  exact div_self (ne_of_gt hden)

/-- Claim C9: for every image at least as large as the 7x7 comparison
window and every positive data range, the SSIM of the image with itself
equals 1.0 exactly. -/
theorem ssim_self (a : Image) (L : ℚ) (hh : 7 ≤ a.h) (hw : 7 ≤ a.w)
    (hL : 0 < L) : ssim a a L = 1 := by
  unfold ssim
  rw [Finset.sum_congr rfl fun p _ =>
    Finset.sum_congr rfl fun q _ => ssimTerm_self a L hL p q]
  rw [Finset.sum_const, Finset.sum_const, Finset.card_range,
    Finset.card_range, nsmul_eq_mul, nsmul_eq_mul, mul_one]
  have hne : (((a.h - 6) * (a.w - 6) : Nat) : ℚ) ≠ 0 := by
    rw [Nat.cast_ne_zero]
    have h1 : a.h - 6 ≠ 0 := by omega
    have h2 : a.w - 6 ≠ 0 := by omega
    exact Nat.mul_ne_zero h1 h2
  rw [show ((a.h - 6 : Nat) : ℚ) * ((a.w - 6 : Nat) : ℚ) =
      (((a.h - 6) * (a.w - 6) : Nat) : ℚ) by push_cast; ring]
  exact div_self hne

theorem ssim_self_witness :
    7 ≤ (⟨7, 7, fun j k => (j * k : ℚ)⟩ : Image).h ∧
    ssim ⟨7, 7, fun j k => (j * k : ℚ)⟩ ⟨7, 7, fun j k => (j * k : ℚ)⟩ 1 = 1 :=
  ⟨by decide,
   ssim_self ⟨7, 7, fun j k => (j * k : ℚ)⟩ 1 (by decide) (by decide)
     (by norm_num)⟩

/-- Embedded from Tutorial.ipynb cell-21: each loaded 8-bit grayscale
image is converted to float and divided by 256 (`np.array(im).astype(float)
/ 256`), pixel values ranging over 0..255. -/
def normalizePixel (p : Nat) : ℚ := (p : ℚ) / 256

/-- Embedded from Tutorial.ipynb cells 23-24: the `data_range` argument
passed to `ssim` and `misc.structural_similarity`. -/
def metricDataRange : ℚ := 1

/-- Claim C10: the notebook's metric-comparison cells divide 8-bit pixel
values by 256 (not 255), so every normalized intensity lies in
[0, 255/256] and never reaches the `data_range = 1.0` passed to the
SSIM/structural-comparison calls. -/
theorem normalizePixel_spec (p : Nat) (hp : p ≤ 255) :
    0 ≤ normalizePixel p ∧ normalizePixel p ≤ 255 / 256 ∧
    normalizePixel p < 1 ∧ normalizePixel p < metricDataRange ∧
    metricDataRange = 1 := by
  have hpq : (p : ℚ) ≤ 255 := by exact_mod_cast hp
  have h0 : (0 : ℚ) ≤ (p : ℚ) := Nat.cast_nonneg p
  unfold normalizePixel metricDataRange
  have hle : (p : ℚ) / 256 ≤ 255 / 256 :=
    (div_le_div_iff_of_pos_right (by norm_num)).mpr hpq
  refine ⟨by positivity, hle, lt_of_le_of_lt hle (by norm_num),
    lt_of_le_of_lt hle (by norm_num), rfl⟩

theorem normalizePixel_spec_witness :
    (255 : Nat) ≤ 255 ∧
    (0 ≤ normalizePixel 255 ∧ normalizePixel 255 ≤ 255 / 256 ∧
      normalizePixel 255 < 1 ∧ normalizePixel 255 < metricDataRange ∧
      metricDataRange = 1) :=
  ⟨le_refl 255, normalizePixel_spec 255 (le_refl 255)⟩

/-- Modelled from the spec: one Directional Super-Resolution Runner pass
(§4.2, happy path): slice along the axis, upsample each slice with the
separable stub adapter built on `R`, stack back in index order. -/
def dirVol (R : Resampler) (v : Volume) (a : Axis) (s : Nat) : Volume :=
  stackAxis ((sliceCore v a).map (adapterOf R s)) a

/-- One directional reconstruction resized to the final target shape. -/
def reconAxis (R : Resampler) (v : Volume) (a : Axis) (s : Nat) : Volume :=
  resize3 R (dirVol R v a s) (v.d * s, v.h * s, v.w * s)

/-- Modelled from the spec: the whole `predict3d` pipeline on one volume
(Tutorial.ipynb cell-9's description): slice along x, y and z, super
resolve each stack, resize each directional reconstruction to the target
shape, and average the three. -/
def process3d (R : Resampler) (s : Nat) (v : Volume) : Volume :=
  fuseWith R (dirVol R v Axis.x s) (dirVol R v Axis.y s)
    (dirVol R v Axis.z s) (v.d * s, v.h * s, v.w * s)

/-- The pipeline through the validated runner (`run`), propagating runner
errors. -/
def process3dE (R : Resampler) (s : Nat) (v : Volume) :
    Except RunError Volume :=
  match run (sliceCore v Axis.x) s (fun img t => adapterOf R t img) Axis.x,
      run (sliceCore v Axis.y) s (fun img t => adapterOf R t img) Axis.y,
      run (sliceCore v Axis.z) s (fun img t => adapterOf R t img) Axis.z with
  | Except.ok dx, Except.ok dy, Except.ok dz =>
      Except.ok (fuseWith R dx dy dz (v.d * s, v.h * s, v.w * s))
  | Except.error e, _, _ => Except.error e
  | Except.ok _, Except.error e, _ => Except.error e
  | Except.ok _, Except.ok _, Except.error e => Except.error e

theorem run_adapterOf_ok (R : Resampler) (stack : List Image) (s : Nat)
    (a : Axis) :
    run stack s (fun img t => adapterOf R t img) a =
      Except.ok (stackAxis (stack.map (adapterOf R s)) a) := by
  unfold run
  exact if_pos (fun img _ => ⟨rfl, rfl⟩)

theorem process3dE_eq (R : Resampler) (s : Nat) (v : Volume) :
    process3dE R s v = Except.ok (process3d R s v) := by
  unfold process3dE
  rw [run_adapterOf_ok, run_adapterOf_ok, run_adapterOf_ok]
  rfl

/-- Direct nearest-neighbor 3D upsampling by integer factor `s`. -/
def nearestUp (v : Volume) (s : Nat) : Volume :=
  ⟨v.d * s, v.h * s, v.w * s, fun i j k => v.data (i / s) (j / s) (k / s)⟩

theorem dirVol_x (R : Resampler) (v : Volume) (s : Nat) (hd : 0 < v.d) :
    (dirVol R v Axis.x s).d = v.d ∧ (dirVol R v Axis.x s).h = v.h * s ∧
    (dirVol R v Axis.x s).w = v.w * s ∧
    ∀ i j k, i < v.d → (dirVol R v Axis.x s).data i j k =
      R v.h (v.h * s)
        (fun j' => R v.w (v.w * s) (fun k' => v.data i j' k') k) j := by
  unfold dirVol sliceCore
  rw [List.map_map]
  refine ⟨?_, ?_, ?_, ?_⟩
  · simp [stackAxis]
  · simp only [stackAxis]
    rw [getD_map_range v.d 0 _ hd]
    rfl
  · simp only [stackAxis]
    rw [getD_map_range v.d 0 _ hd]
    rfl
  · intro i j k hi
    simp only [stackAxis]
    rw [getD_map_range v.d i _ hi]
    rfl

theorem dirVol_y (R : Resampler) (v : Volume) (s : Nat) (hh : 0 < v.h) :
    (dirVol R v Axis.y s).d = v.d * s ∧ (dirVol R v Axis.y s).h = v.h ∧
    (dirVol R v Axis.y s).w = v.w * s ∧
    ∀ i j k, j < v.h → (dirVol R v Axis.y s).data i j k =
      R v.d (v.d * s)
        (fun i' => R v.w (v.w * s) (fun k' => v.data i' j k') k) i := by
  unfold dirVol sliceCore
  rw [List.map_map]
  refine ⟨?_, ?_, ?_, ?_⟩
  · simp only [stackAxis]
    rw [getD_map_range v.h 0 _ hh]
    rfl
  · simp [stackAxis]
  · simp only [stackAxis]
    rw [getD_map_range v.h 0 _ hh]
    rfl
  · intro i j k hj
    simp only [stackAxis]
    rw [getD_map_range v.h j _ hj]
    rfl

theorem dirVol_z (R : Resampler) (v : Volume) (s : Nat) (hw : 0 < v.w) :
    (dirVol R v Axis.z s).d = v.d * s ∧ (dirVol R v Axis.z s).h = v.h * s ∧
    (dirVol R v Axis.z s).w = v.w ∧
    ∀ i j k, k < v.w → (dirVol R v Axis.z s).data i j k =
      R v.d (v.d * s)
        (fun i' => R v.h (v.h * s) (fun j' => v.data i' j' k) j) i := by
  unfold dirVol sliceCore
  rw [List.map_map]
  refine ⟨?_, ?_, ?_, ?_⟩
  · simp only [stackAxis]
    rw [getD_map_range v.w 0 _ hw]
    rfl
  · simp only [stackAxis]
    rw [getD_map_range v.w 0 _ hw]
    rfl
  · simp [stackAxis]
  · intro i j k hk
    simp only [stackAxis]
    rw [getD_map_range v.w k _ hk]
    rfl

theorem mul_div_mul_s {n s : Nat} (j : Nat) (hn : 0 < n) :
    j * n / (n * s) = j / s := by
  rw [Nat.mul_comm j n]
  exact Nat.mul_div_mul_left j s hn

theorem reconAxis_nearest (v : Volume) (s : Nat) (a : Axis)
    (hd : 0 < v.d) (hh : 0 < v.h) (hw : 0 < v.w) (hs : 0 < s) :
    ∀ x y z, x < v.d * s → y < v.h * s → z < v.w * s →
      (reconAxis nearestR v a s).data x y z =
        v.data (x / s) (y / s) (z / s) := by
  intro x y z hx hy hz
  have hxs : x / s < v.d := (Nat.div_lt_iff_lt_mul hs).mpr hx
  have hys : y / s < v.h := (Nat.div_lt_iff_lt_mul hs).mpr hy
  have hzs : z / s < v.w := (Nat.div_lt_iff_lt_mul hs).mpr hz
  cases a
  case x =>
    obtain ⟨e1, e2, e3, edata⟩ := dirVol_x nearestR v s hd
    show (dirVol nearestR v Axis.x s).data
        (x * (dirVol nearestR v Axis.x s).d / (v.d * s))
        (y * (dirVol nearestR v Axis.x s).h / (v.h * s))
        (z * (dirVol nearestR v Axis.x s).w / (v.w * s)) = _
    rw [e1, e2, e3, mul_div_mul_s x hd, Nat.mul_div_cancel y
      (Nat.mul_pos hh hs), Nat.mul_div_cancel z (Nat.mul_pos hw hs)]
    rw [edata (x / s) y z hxs]
    show v.data (x / s) (y * v.h / (v.h * s)) (z * v.w / (v.w * s)) = _
    rw [mul_div_mul_s y hh, mul_div_mul_s z hw]
  case y =>
    obtain ⟨e1, e2, e3, edata⟩ := dirVol_y nearestR v s hh
    show (dirVol nearestR v Axis.y s).data
        (x * (dirVol nearestR v Axis.y s).d / (v.d * s))
        (y * (dirVol nearestR v Axis.y s).h / (v.h * s))
        (z * (dirVol nearestR v Axis.y s).w / (v.w * s)) = _
    rw [e1, e2, e3, Nat.mul_div_cancel x (Nat.mul_pos hd hs),
      mul_div_mul_s y hh, Nat.mul_div_cancel z (Nat.mul_pos hw hs)]
    rw [edata x (y / s) z hys]
    show v.data (x * v.d / (v.d * s)) (y / s) (z * v.w / (v.w * s)) = _
    rw [mul_div_mul_s x hd, mul_div_mul_s z hw]
  case z =>
    obtain ⟨e1, e2, e3, edata⟩ := dirVol_z nearestR v s hw
    show (dirVol nearestR v Axis.z s).data
        (x * (dirVol nearestR v Axis.z s).d / (v.d * s))
        (y * (dirVol nearestR v Axis.z s).h / (v.h * s))
        (z * (dirVol nearestR v Axis.z s).w / (v.w * s)) = _
    rw [e1, e2, e3, Nat.mul_div_cancel x (Nat.mul_pos hd hs),
      Nat.mul_div_cancel y (Nat.mul_pos hh hs), mul_div_mul_s z hw]
    rw [edata x y (z / s) hzs]
    show v.data (x * v.d / (v.d * s)) (y * v.h / (v.h * s)) (z / s) = _
    rw [mul_div_mul_s x hd, mul_div_mul_s y hh]

theorem process3d_nearest (v : Volume) (s : Nat)
    (hd : 0 < v.d) (hh : 0 < v.h) (hw : 0 < v.w) (hs : 0 < s) :
    volEqv (process3d nearestR s v) (nearestUp v s) := by
  refine ⟨rfl, rfl, rfl, ?_⟩
  intro x hx y hy z hz
  show ((reconAxis nearestR v Axis.x s).data x y z +
      (reconAxis nearestR v Axis.y s).data x y z +
      (reconAxis nearestR v Axis.z s).data x y z) / 3 =
    v.data (x / s) (y / s) (z / s)
  rw [reconAxis_nearest v s Axis.x hd hh hw hs x y z hx hy hz,
    reconAxis_nearest v s Axis.y hd hh hw hs x y z hx hy hz,
    reconAxis_nearest v s Axis.z hd hh hw hs x y z hx hy hz]
  ring

theorem offset_div {s : Nat} (hs : 0 < s) (o r : Nat) :
    (o * s + r) / s = o + r / s := by
  rw [Nat.mul_comm o s]
  exact Nat.mul_add_div hs o r

/-- Claim C5: for every volume and cube size, splitting into cubes,
running the pipeline on each cube independently and recombining yields
exactly the same final volume as running the pipeline on the whole volume
(exact rational equality, hence within any floating-point tolerance of the
averaging step); the untiled pipeline run through the validated runner
succeeds with that same volume. -/
theorem tiled_untiled_equiv (v : Volume) (c s : Nat)
    (hd : 0 < v.d) (hh : 0 < v.h) (hw : 0 < v.w)
    (hc : 0 < c) (hs : 0 < s) :
    process3dE nearestR s v = Except.ok (process3d nearestR s v)
    ∧ ∃ out, recombine
        (processCubes (fun cu => process3d nearestR s cu.vol) (split v c))
        v.d v.h v.w s = Except.ok out
      ∧ volEqv out (process3d nearestR s v) := by
  have hP : ∀ cu, cu ∈ split v c →
      (process3d nearestR s cu.vol).d = cu.vol.d * s ∧
      (process3d nearestR s cu.vol).h = cu.vol.h * s ∧
      (process3d nearestR s cu.vol).w = cu.vol.w * s :=
    fun cu _ => ⟨rfl, rfl, rfl⟩
  obtain ⟨out, hok, hdo, hho, hwo, hplace⟩ :=
    recombine_split_ok v c s (fun cu => process3d nearestR s cu.vol) hc hs hP
  refine ⟨process3dE_eq nearestR s v, out, hok, hdo, hho, hwo, ?_⟩
  intro x hx0 y hy0 z hz0
  rw [hdo] at hx0
  rw [hho] at hy0
  rw [hwo] at hz0
  obtain ⟨pcu, hpcu, hreg, _, _, _, _⟩ :=
    processed_cover hc hs hP hx0 hy0 hz0
  obtain ⟨m1, m2, m3, g1, g2, g3, f1, f2, f3, d1, d2, d3, hform⟩ :=
    processed_region hc hP hpcu
  obtain ⟨a1, a2, a3, a4, a5, a6⟩ := hreg
  have hax : x - pcu.o1 * s < pcu.vol.d := by omega
  have hay : y - pcu.o2 * s < pcu.vol.h := by omega
  have haz : z - pcu.o3 * s < pcu.vol.w := by omega
  have hvplace := hplace pcu hpcu _ _ _ hax hay haz
  have hxeq : pcu.o1 * s + (x - pcu.o1 * s) = x := by omega
  have hyeq : pcu.o2 * s + (y - pcu.o2 * s) = y := by omega
  have hzeq : pcu.o3 * s + (z - pcu.o3 * s) = z := by omega
  rw [hxeq, hyeq, hzeq] at hvplace
  rw [hvplace]
  have hpvol := congrArg Cube.vol hform
  have hcd : 0 < min c (v.d - m1 * c) := Nat.lt_min.mpr ⟨hc, by omega⟩
  have hch : 0 < min c (v.h - m2 * c) := Nat.lt_min.mpr ⟨hc, by omega⟩
  have hcw : 0 < min c (v.w - m3 * c) := Nat.lt_min.mpr ⟨hc, by omega⟩
  have hnv := process3d_nearest
    (mkCube v c (m1 * c, m2 * c, m3 * c)).vol s hcd hch hcw hs
  have hax2 : x - pcu.o1 * s < min c (v.d - m1 * c) * s := by
    rw [← d1]
    exact hax
  have hay2 : y - pcu.o2 * s < min c (v.h - m2 * c) * s := by
    rw [← d2]
    exact hay
  have haz2 : z - pcu.o3 * s < min c (v.w - m3 * c) * s := by
    rw [← d3]
    exact haz
  have hdata := hnv.2.2.2 (x - pcu.o1 * s) hax2 (y - pcu.o2 * s) hay2
    (z - pcu.o3 * s) haz2
  have lhs_eq : pcu.vol.data (x - pcu.o1 * s) (y - pcu.o2 * s)
      (z - pcu.o3 * s) =
      v.data (m1 * c + (x - pcu.o1 * s) / s) (m2 * c + (y - pcu.o2 * s) / s)
        (m3 * c + (z - pcu.o3 * s) / s) := by
    rw [hpvol]
    exact hdata
  rw [lhs_eq]
  have rhs_eq := (process3d_nearest v s hd hh hw hs).2.2.2 x hx0 y hy0 z hz0
  rw [rhs_eq]
  have comp1 : m1 * c + (x - m1 * c * s) / s = x / s := by
    have a1' : m1 * c * s ≤ x := by
      rw [← f1]
      exact a1
    have heq : m1 * c * s + (x - m1 * c * s) = x := by omega
    calc m1 * c + (x - m1 * c * s) / s
        = (m1 * c * s + (x - m1 * c * s)) / s := (offset_div hs _ _).symm
      _ = x / s := by rw [heq]
  have comp2 : m2 * c + (y - m2 * c * s) / s = y / s := by
    have a3' : m2 * c * s ≤ y := by
      rw [← f2]
      exact a3
    have heq : m2 * c * s + (y - m2 * c * s) = y := by omega
    calc m2 * c + (y - m2 * c * s) / s
        = (m2 * c * s + (y - m2 * c * s)) / s := (offset_div hs _ _).symm
      _ = y / s := by rw [heq]
  have comp3 : m3 * c + (z - m3 * c * s) / s = z / s := by
    have a5' : m3 * c * s ≤ z := by
      rw [← f3]
      exact a5
    have heq : m3 * c * s + (z - m3 * c * s) = z := by omega
    calc m3 * c + (z - m3 * c * s) / s
        = (m3 * c * s + (z - m3 * c * s)) / s := (offset_div hs _ _).symm
      _ = z / s := by rw [heq]
  rw [f1, f2, f3, comp1, comp2, comp3]
  rfl

theorem tiled_untiled_equiv_witness :
    process3dE nearestR 2 ⟨8, 8, 8, fun i j k => (i + j + k : ℚ)⟩ =
      Except.ok (process3d nearestR 2 ⟨8, 8, 8, fun i j k => (i + j + k : ℚ)⟩)
    ∧ ∃ out, recombine
        (processCubes (fun cu => process3d nearestR 2 cu.vol)
          (split ⟨8, 8, 8, fun i j k => (i + j + k : ℚ)⟩ 4)) 8 8 8 2 =
        Except.ok out
      ∧ volEqv out
        (process3d nearestR 2 ⟨8, 8, 8, fun i j k => (i + j + k : ℚ)⟩) :=
  tiled_untiled_equiv ⟨8, 8, 8, fun i j k => (i + j + k : ℚ)⟩ 4 2
    (by decide) (by decide) (by decide) (by decide) (by decide)

theorem cubicR_id {n : Nat} (hn : 0 < n) (f : Nat → ℚ) {i : Nat}
    (hi : i < n) : cubicR n n f i = f i := by
  unfold cubicR
  rw [Finset.sum_range_succ, Finset.sum_range_succ, Finset.sum_range_succ,
    Finset.sum_range_one]
  rw [Nat.mul_mod_left, Nat.mul_div_cancel i hn]
  have hmin : min (i + 1 - 1) (n - 1) = i := by omega
  rw [hmin]
  norm_num [cubicW]

theorem cubicR_swap (n1 m1 n2 m2 i j : Nat) (g : Nat → Nat → ℚ) :
    cubicR n1 m1 (fun a => cubicR n2 m2 (fun b => g a b) j) i =
    cubicR n2 m2 (fun b => cubicR n1 m1 (fun a => g a b) i) j := by
  unfold cubicR
  simp only [Finset.mul_sum]
  rw [Finset.sum_comm]
  refine Finset.sum_congr rfl fun t _ => Finset.sum_congr rfl fun u _ => ?_
  ring

theorem cubicR_congr {n m : Nat} (hn : 0 < n) {f g : Nat → ℚ}
    (hfg : ∀ t, t < n → f t = g t) (i : Nat) :
    cubicR n m f i = cubicR n m g i := by
  unfold cubicR
  refine Finset.sum_congr rfl fun t _ => ?_
  rw [hfg _ (Nat.lt_of_le_of_lt (Nat.min_le_right _ _) (by omega))]

theorem upD_congr {X Y : Volume} (hXY : volEqv X Y) (hd : 0 < X.d)
    (m : Nat) : volEqv (upD cubicR X m) (upD cubicR Y m) := by
  obtain ⟨e1, e2, e3, hdat⟩ := hXY
  refine ⟨rfl, e2, e3, ?_⟩
  intro i _ j hj k hk
  show cubicR X.d m (fun i' => X.data i' j k) i =
    cubicR Y.d m (fun i' => Y.data i' j k) i
  rw [← e1]
  exact cubicR_congr hd (fun t ht => hdat t ht j hj k hk) i

theorem upH_congr {X Y : Volume} (hXY : volEqv X Y) (hh : 0 < X.h)
    (m : Nat) : volEqv (upH cubicR X m) (upH cubicR Y m) := by
  obtain ⟨e1, e2, e3, hdat⟩ := hXY
  refine ⟨e1, rfl, e3, ?_⟩
  intro i hi j _ k hk
  show cubicR X.h m (fun j' => X.data i j' k) j =
    cubicR Y.h m (fun j' => Y.data i j' k) j
  rw [← e2]
  exact cubicR_congr hh (fun t ht => hdat i hi t ht k hk) j

theorem upW_congr {X Y : Volume} (hXY : volEqv X Y) (hw : 0 < X.w)
    (m : Nat) : volEqv (upW cubicR X m) (upW cubicR Y m) := by
  obtain ⟨e1, e2, e3, hdat⟩ := hXY
  refine ⟨e1, e2, rfl, ?_⟩
  intro i hi j hj k _
  show cubicR X.w m (fun k' => X.data i j k') k =
    cubicR Y.w m (fun k' => Y.data i j k') k
  rw [← e3]
  exact cubicR_congr hw (fun t ht => hdat i hi j hj t ht) k

theorem upD_id {X : Volume} (hd : 0 < X.d) :
    volEqv (upD cubicR X X.d) X :=
  ⟨rfl, rfl, rfl, fun i hi j _ k _ =>
    cubicR_id hd (fun a => X.data a j k) hi⟩

theorem upH_id {X : Volume} (hh : 0 < X.h) :
    volEqv (upH cubicR X X.h) X :=
  ⟨rfl, rfl, rfl, fun i _ j hj k _ =>
    cubicR_id hh (fun a => X.data i a k) hj⟩

theorem upW_id {X : Volume} (hw : 0 < X.w) :
    volEqv (upW cubicR X X.w) X :=
  ⟨rfl, rfl, rfl, fun i _ j _ k hk =>
    cubicR_id hw (fun a => X.data i j a) hk⟩

theorem upD_upH_comm (v : Volume) (m1 m2 : Nat) :
    upD cubicR (upH cubicR v m2) m1 = upH cubicR (upD cubicR v m1) m2 := by
  unfold upD upH
  exact congrArg (Volume.mk m1 m2 v.w) (funext fun i => funext fun j =>
    funext fun k => cubicR_swap v.d m1 v.h m2 i j (fun a b => v.data a b k))

theorem upD_upW_comm (v : Volume) (m1 m2 : Nat) :
    upD cubicR (upW cubicR v m2) m1 = upW cubicR (upD cubicR v m1) m2 := by
  unfold upD upW
  exact congrArg (Volume.mk m1 v.h m2) (funext fun i => funext fun j =>
    funext fun k => cubicR_swap v.d m1 v.w m2 i k (fun a b => v.data a j b))

theorem upH_upW_comm (v : Volume) (m1 m2 : Nat) :
    upH cubicR (upW cubicR v m2) m1 = upW cubicR (upH cubicR v m1) m2 := by
  unfold upH upW
  exact congrArg (Volume.mk v.d m1 m2) (funext fun i => funext fun j =>
    funext fun k => cubicR_swap v.h m1 v.w m2 j k (fun a b => v.data i a b))

/-- Modelled from the spec: separable bicubic upsampling of a whole volume
by factor `s` (the "bicubic upsample of the original volume" of §8). -/
def bicubic3 (v : Volume) (s : Nat) : Volume :=
  resize3 cubicR v (v.d * s, v.h * s, v.w * s)

theorem recon_cubic (v : Volume) (s : Nat) (hd : 0 < v.d) (hh : 0 < v.h)
    (hw : 0 < v.w) (hs : 0 < s) :
    ∀ a : Axis, volEqv (reconAxis cubicR v a s) (bicubic3 v s) := by
  intro a
  cases a
  case x =>
    obtain ⟨e1, e2, e3, edata⟩ := dirVol_x cubicR v s hd
    have hdirx : volEqv (dirVol cubicR v Axis.x s)
        (upH cubicR (upW cubicR v (v.w * s)) (v.h * s)) := by
      refine ⟨e1, e2, e3, ?_⟩
      intro i hi j hj k hk
      rw [e1] at hi
      exact edata i j k hi
    have st1 : volEqv (upW cubicR (dirVol cubicR v Axis.x s) (v.w * s))
        (upH cubicR (upW cubicR v (v.w * s)) (v.h * s)) := by
      refine volEqv_trans (upW_congr hdirx ?_ (v.w * s)) (upW_id ?_)
      · rw [e3]
        exact Nat.mul_pos hw hs
      · exact Nat.mul_pos hw hs
    have st2 : volEqv (upH cubicR
        (upW cubicR (dirVol cubicR v Axis.x s) (v.w * s)) (v.h * s))
        (upH cubicR (upW cubicR v (v.w * s)) (v.h * s)) := by
      refine volEqv_trans (upH_congr st1 ?_ (v.h * s)) (upH_id ?_)
      · show 0 < (dirVol cubicR v Axis.x s).h
        rw [e2]
        exact Nat.mul_pos hh hs
      · exact Nat.mul_pos hh hs
    refine upD_congr st2 ?_ (v.d * s)
    show 0 < (dirVol cubicR v Axis.x s).d
    rw [e1]
    exact hd
  case y =>
    obtain ⟨e1, e2, e3, edata⟩ := dirVol_y cubicR v s hh
    have hdiry : volEqv (dirVol cubicR v Axis.y s)
        (upD cubicR (upW cubicR v (v.w * s)) (v.d * s)) := by
      refine ⟨e1, e2, e3, ?_⟩
      intro i hi j hj k hk
      rw [e2] at hj
      exact edata i j k hj
    have st1 : volEqv (upW cubicR (dirVol cubicR v Axis.y s) (v.w * s))
        (upD cubicR (upW cubicR v (v.w * s)) (v.d * s)) := by
      refine volEqv_trans (upW_congr hdiry ?_ (v.w * s)) (upW_id ?_)
      · rw [e3]
        exact Nat.mul_pos hw hs
      · exact Nat.mul_pos hw hs
    have st2 : volEqv (upH cubicR
        (upW cubicR (dirVol cubicR v Axis.y s) (v.w * s)) (v.h * s))
        (upH cubicR (upD cubicR (upW cubicR v (v.w * s)) (v.d * s))
          (v.h * s)) := by
      refine upH_congr st1 ?_ (v.h * s)
      show 0 < (dirVol cubicR v Axis.y s).h
      rw [e2]
      exact hh
    have st3 : volEqv (reconAxis cubicR v Axis.y s)
        (upD cubicR (upH cubicR (upD cubicR (upW cubicR v (v.w * s))
          (v.d * s)) (v.h * s)) (v.d * s)) := by
      refine upD_congr st2 ?_ (v.d * s)
      show 0 < (dirVol cubicR v Axis.y s).d
      rw [e1]
      exact Nat.mul_pos hd hs
    refine volEqv_trans st3 ?_
    rw [← upD_upH_comm (upW cubicR v (v.w * s)) (v.d * s) (v.h * s)]
    exact upD_id (Nat.mul_pos hd hs)
  case z =>
    obtain ⟨e1, e2, e3, edata⟩ := dirVol_z cubicR v s hw
    have hdirz : volEqv (dirVol cubicR v Axis.z s)
        (upD cubicR (upH cubicR v (v.h * s)) (v.d * s)) := by
      refine ⟨e1, e2, e3, ?_⟩
      intro i hi j hj k hk
      rw [e3] at hk
      exact edata i j k hk
    have st1 : volEqv (upW cubicR (dirVol cubicR v Axis.z s) (v.w * s))
        (upW cubicR (upD cubicR (upH cubicR v (v.h * s)) (v.d * s))
          (v.w * s)) := by
      refine upW_congr hdirz ?_ (v.w * s)
      rw [e3]
      exact hw
    have st2 : volEqv (upH cubicR
        (upW cubicR (dirVol cubicR v Axis.z s) (v.w * s)) (v.h * s))
        (upW cubicR (upD cubicR (upH cubicR v (v.h * s)) (v.d * s))
          (v.w * s)) := by
      refine volEqv_trans (upH_congr st1 ?_ (v.h * s)) (upH_id ?_)
      · show 0 < (dirVol cubicR v Axis.z s).h
        rw [e2]
        exact Nat.mul_pos hh hs
      · exact Nat.mul_pos hh hs
    have st3 : volEqv (reconAxis cubicR v Axis.z s)
        (upW cubicR (upD cubicR (upH cubicR v (v.h * s)) (v.d * s))
          (v.w * s)) := by
      refine volEqv_trans (upD_congr st2 ?_ (v.d * s)) (upD_id ?_)
      · show 0 < (dirVol cubicR v Axis.z s).d
        rw [e1]
        exact Nat.mul_pos hd hs
      · exact Nat.mul_pos hd hs
    refine volEqv_trans st3 ?_
    rw [← upD_upW_comm (upH cubicR v (v.h * s)) (v.d * s) (v.w * s),
      ← upH_upW_comm v (v.h * s) (v.w * s)]
    exact volEqv_refl _

theorem volMean3_eqv {a1 a2 a3 b : Volume} (h1 : volEqv a1 b)
    (h2 : volEqv a2 b) (h3 : volEqv a3 b) :
    volEqv (volMean3 a1 a2 a3) b := by
  obtain ⟨d1, d2, d3, e1⟩ := h1
  obtain ⟨f1, f2, f3, e2⟩ := h2
  obtain ⟨g1, g2, g3, e3⟩ := h3
  refine ⟨d1, d2, d3, ?_⟩
  intro i hi j hj k hk
  show (a1.data i j k + a2.data i j k + a3.data i j k) / 3 = b.data i j k
  rw [e1 i hi j hj k hk,
    e2 i (by rw [f1, ← d1]; exact hi) j (by rw [f2, ← d2]; exact hj)
      k (by rw [f3, ← d3]; exact hk),
    e3 i (by rw [g1, ← d1]; exact hi) j (by rw [g2, ← d2]; exact hj)
      k (by rw [g3, ← d3]; exact hk)]
  ring

/-- Claim C6: for an 8x8x8 volume at scale factor 2 with no tiling and the
bicubic stub adapter, the pipeline output has shape 16x16x16, the run
through the validated runner succeeds, the three directional
reconstructions coincide, and the fused output equals the separable
bicubic upsample of the original volume. -/
theorem bicubic_pipeline_8 (v : Volume)
    (hd8 : v.d = 8) (hh8 : v.h = 8) (hw8 : v.w = 8) :
    (process3d cubicR 2 v).shape = (16, 16, 16)
    ∧ process3dE cubicR 2 v = Except.ok (process3d cubicR 2 v)
    ∧ volEqv (reconAxis cubicR v Axis.x 2) (reconAxis cubicR v Axis.y 2)
    ∧ volEqv (reconAxis cubicR v Axis.y 2) (reconAxis cubicR v Axis.z 2)
    ∧ volEqv (process3d cubicR 2 v) (bicubic3 v 2) := by
  have hd : 0 < v.d := by omega
  have hh : 0 < v.h := by omega
  have hw : 0 < v.w := by omega
  have hx := recon_cubic v 2 hd hh hw (by norm_num) Axis.x
  have hy := recon_cubic v 2 hd hh hw (by norm_num) Axis.y
  have hz := recon_cubic v 2 hd hh hw (by norm_num) Axis.z
  refine ⟨?_, process3dE_eq cubicR 2 v,
    volEqv_trans hx (volEqv_symm hy), volEqv_trans hy (volEqv_symm hz),
    volMean3_eqv hx hy hz⟩
  show (v.d * 2, v.h * 2, v.w * 2) = (16, 16, 16)
  rw [hd8, hh8, hw8]

theorem bicubic_pipeline_8_witness :
    (process3d cubicR 2
        ⟨8, 8, 8, fun i j k => (i + 2 * j + 3 * k : ℚ)⟩).shape = (16, 16, 16)
    ∧ process3dE cubicR 2 ⟨8, 8, 8, fun i j k => (i + 2 * j + 3 * k : ℚ)⟩ =
      Except.ok (process3d cubicR 2
        ⟨8, 8, 8, fun i j k => (i + 2 * j + 3 * k : ℚ)⟩)
    ∧ volEqv
      (reconAxis cubicR ⟨8, 8, 8, fun i j k => (i + 2 * j + 3 * k : ℚ)⟩
        Axis.x 2)
      (reconAxis cubicR ⟨8, 8, 8, fun i j k => (i + 2 * j + 3 * k : ℚ)⟩
        Axis.y 2)
    ∧ volEqv
      (reconAxis cubicR ⟨8, 8, 8, fun i j k => (i + 2 * j + 3 * k : ℚ)⟩
        Axis.y 2)
      (reconAxis cubicR ⟨8, 8, 8, fun i j k => (i + 2 * j + 3 * k : ℚ)⟩
        Axis.z 2)
    ∧ volEqv
      (process3d cubicR 2 ⟨8, 8, 8, fun i j k => (i + 2 * j + 3 * k : ℚ)⟩)
      (bicubic3 ⟨8, 8, 8, fun i j k => (i + 2 * j + 3 * k : ℚ)⟩ 2) :=
  bicubic_pipeline_8 ⟨8, 8, 8, fun i j k => (i + 2 * j + 3 * k : ℚ)⟩
    rfl rfl rfl
